import Mathlib

/-!
Verification development for the `zircon` in-memory vector store
(`MemVectorStore`, file `zircon/store/mem_vector_store.cc`, plus the
constants and option struct from `zircon/core/defines.h`).

The store is shallowly embedded: machine integers (`location_t = uint32_t`,
`label_type = size_t`) are modelled as `Nat`; the checked arithmetic in the
source never overflows in the states the theorems quantify over, and the
only subtractions performed (`_current_idx - _deleted_size`,
`--_deleted_size`) are shown not to underflow, so truncated `Nat`
subtraction agrees with the unsigned machine subtraction there.  Fallible
operations (`turbo::ResultStatus`) become `Except StoreError`; a failed
`TLOG_CHECK` (which aborts the process) is modelled as `StoreError.fatal`.
Mutating member functions take and return the whole store state; `const`
member functions return only their value.  An out-of-bounds vector index in
the source (undefined behaviour) is modelled as `StoreError.fatal` / `none`.

The `VectorBatch` page type is not part of the provided sources (only its
call sites are); it is modelled from the spec, as marked on each of its
operations below.
-/

set_option maxRecDepth 10000

/-- Source: `constants::kUnknownLabel = std::numeric_limits<size_t>::max()`
(`zircon/core/defines.h`). -/
def kUnknownLabel : Nat := 2 ^ 64 - 1

/-- Source: `VectorStoreOption` (`zircon/core/defines.h`): `batch_size` (default 256),
`max_elements` (default 100000), `vector_byte_size` (default 0),
`enable_replace_vacant` (default true). -/
structure VectorStoreOption where
  batch_size : Nat
  max_elements : Nat
  vector_byte_size : Nat
  enable_replace_vacant : Bool
deriving Repr, DecidableEq

/-- Modelled from the spec: a `VectorBatch` owns a fixed-capacity page of
`batch_size` slots of `vector_byte_size` bytes each, with a fill cursor
(`size()`) that `resize` moves without touching the physical capacity or
the slot bytes. -/
structure VectorBatch where
  cap : Nat
  cursor : Nat
  bytes : List (List Nat)
deriving Repr, DecidableEq

/-- Modelled from the spec: `VectorBatch::init(width, capacity)` allocates
`capacity` zeroed slots of `width` bytes, fill cursor 0. -/
def VectorBatch.init (width cap : Nat) : VectorBatch :=
  { cap := cap, cursor := 0, bytes := List.replicate cap (List.replicate width 0) }

/-- Modelled from the spec: `VectorBatch::size()` is the fill cursor. -/
def VectorBatch.size (b : VectorBatch) : Nat := b.cursor

/-- Modelled from the spec: `VectorBatch::available()` is capacity minus fill cursor. -/
def VectorBatch.availableSlots (b : VectorBatch) : Nat := b.cap - b.cursor

/-- Modelled from the spec: `VectorBatch::is_empty()`. -/
def VectorBatch.is_empty (b : VectorBatch) : Bool := b.cursor == 0

/-- Modelled from the spec: `VectorBatch::resize(n)` adjusts only the fill
cursor, never the physical capacity or the slot bytes. -/
def VectorBatch.resizeCursor (b : VectorBatch) (n : Nat) : VectorBatch :=
  { b with cursor := n }

/-- Modelled from the spec: `VectorBatch::set_vector(i, v)` overwrites the
bytes of slot `i` only. -/
def VectorBatch.set_vector (b : VectorBatch) (i : Nat) (v : List Nat) : VectorBatch :=
  { b with bytes := b.bytes.set i v }

/-- Modelled from the spec: `VectorBatch::at(i)` reads the bytes of slot `i`. -/
def VectorBatch.atSlot (b : VectorBatch) (i : Nat) : List Nat := b.bytes.getD i []

/-- Error kinds of `turbo::Status` as used by the store, plus `fatal` for a
failed `TLOG_CHECK` (process abort) or out-of-bounds access (UB). -/
inductive StoreError where
  | fatal
  | resourceExhausted
  | alreadyExists
  | notFound
  | unavailable
deriving Repr, DecidableEq

deriving instance DecidableEq for Except

/-- The member state of `MemVectorStore`, with the source's field names. The
label map (`turbo::flat_hash_map<label_type, location_t>`) is modelled as an
association list; the tombstone map (a Roaring bitmap: an ordered set of
`location_t` with `add`/`remove`/`isEmpty`/`minimum`) as a strictly sorted
list. -/
structure MemVectorStore where
  _option : VectorStoreOption
  _lid_to_label : List Nat
  _data : List VectorBatch
  _label_map : List (Nat × Nat)
  _deleted_map : List Nat
  _deleted_size : Nat
  _current_idx : Nat
  _is_available : Bool
deriving Repr, DecidableEq

/-- A default-constructed `MemVectorStore`: default options, empty
containers, not yet initialized. -/
def emptyStore : MemVectorStore :=
  { _option := { batch_size := 256, max_elements := 100000,
                 vector_byte_size := 0, enable_replace_vacant := true }
    _lid_to_label := []
    _data := []
    _label_map := []
    _deleted_map := []
    _deleted_size := 0
    _current_idx := 0
    _is_available := false }

/-- Source: `_label_map[label] = lid` on a `flat_hash_map`: overwrite the binding if
present, else insert it. -/
def mapInsert (m : List (Nat × Nat)) (label lid : Nat) : List (Nat × Nat) :=
  if (List.lookup label m).isSome then
    m.map (fun p => if p.1 = label then (label, lid) else p)
  else
    m ++ [(label, lid)]

/-- Roaring `add`: insert into the ordered set (no-op if present). -/
def osetAdd : List Nat → Nat → List Nat
  | [], x => [x]
  | y :: t, x =>
    if x < y then x :: y :: t
    else if x = y then y :: t
    else y :: osetAdd t x

/-- Roaring `remove`: delete from the ordered set. -/
def osetRemove (l : List Nat) (x : Nat) : List Nat := l.erase x

/-- Roaring `minimum`: least element of the ordered (sorted) set. -/
def osetMin (l : List Nat) : Nat := l.head?.getD 0

/-- Strictly-sorted predicate for the ordered-set representation. -/
def isSortedLT : List Nat → Bool
  | [] => true
  | [_] => true
  | x :: y :: t => decide (x < y) && isSortedLT (y :: t)

/-- Source: `std::vector<T>::resize(n, v)`: truncate to `n` or extend with copies of `v`. -/
def resizeFill (l : List Nat) (n : Nat) (v : Nat) : List Nat :=
  l.take n ++ List.replicate (n - l.length) v

/-- Source: `MemVectorStore::expend()`: append one freshly initialized batch. -/
def MemVectorStore.expend (s : MemVectorStore) : MemVectorStore :=
  { s with _data := s._data ++ [VectorBatch.init s._option.vector_byte_size s._option.batch_size] }

/-- The loop of `reserve_impl`: `while (_data.size() * batch_size < n) expend();`
written with explicit fuel; `fuel = n` suffices whenever `batch_size ≥ 1`
(each iteration adds `batch_size ≥ 1` slots of capacity).  When
`batch_size = 0` the source loops forever; the model runs out of fuel and
stops instead. -/
def reserveAux : Nat → Nat → MemVectorStore → MemVectorStore
  | 0, _, s => s
  | fuel + 1, n, s =>
    if s._data.length * s._option.batch_size < n then reserveAux fuel n s.expend else s

/-- Source: `MemVectorStore::reserve_impl(n)`: cap `n` at `max_elements`, then grow
the batch chain until the allocated capacity covers it. -/
def MemVectorStore.reserve_impl (s : MemVectorStore) (n0 : Nat) : MemVectorStore :=
  let n := min n0 s._option.max_elements
  reserveAux n n s

/-- The shrinking loop of `resize_impl` (`for (idx = _current_idx/batch_size;
need_to_pop > 0; idx--)`).  `none` models the source's undefined behaviour:
either `_data[idx]` with `idx` one past the last batch, or the unsigned
wrap-around of `idx--` below zero followed by a wild index. -/
def shrinkLoop : Nat → List VectorBatch → Nat → Option (List VectorBatch)
  | _, data, 0 => some data
  | idx, data, need + 1 =>
    match data[idx]? with
    | none => none
    | some b =>
      if need + 1 ≤ b.cursor then
        some (data.set idx (b.resizeCursor (b.cursor - (need + 1))))
      else
        match idx with
        | 0 => none
        | i + 1 => shrinkLoop i (data.set (i + 1) (b.resizeCursor 0)) (need + 1 - b.cursor)

/-- The growing loop of `resize_impl` (`for (idx = _current_idx/batch_size;
need_to_expand > 0; idx++)`), with explicit fuel; `data.length + 1` fuel is
always enough, and `none` models running past the last batch
(`_data[idx]` out of range: undefined behaviour in the source). -/
def growLoop : Nat → List VectorBatch → Nat → Nat → Option (List VectorBatch)
  | _, data, _, 0 => some data
  | 0, _, _, _ + 1 => none
  | fuel + 1, data, idx, need + 1 =>
    match data[idx]? with
    | none => none
    | some b =>
      if need + 1 ≤ b.availableSlots then
        some (data.set idx (b.resizeCursor (b.size + (need + 1))))
      else
        growLoop fuel (data.set idx (b.resizeCursor b.cap)) (idx + 1)
          (need + 1 - b.availableSlots)

/-- Source: `MemVectorStore::resize_impl(n)`: no-op at the current mark; otherwise
lower fill cursors from the batch holding the mark backward, or reserve and
raise fill cursors forward; finally set `_current_idx = n`. -/
def MemVectorStore.resize_impl (s : MemVectorStore) (n : Nat) : Option MemVectorStore :=
  if n = s._current_idx then some s
  else if n < s._current_idx then
    match shrinkLoop (s._current_idx / s._option.batch_size) s._data (s._current_idx - n) with
    | none => none
    | some d => some { s with _data := d, _current_idx := n }
  else
    let s1 := s.reserve_impl n
    match growLoop (s1._data.length + 1) s1._data (s._current_idx / s._option.batch_size)
        (n - s._current_idx) with
    | none => none
    | some d => some { s1 with _data := d, _current_idx := n }

/-- Source: `MemVectorStore::initialize(op)`: store the options, size the reverse map
to `max_elements` filled with `kUnknownLabel`, eagerly reserve batches for
`max_elements`, mark the store available. -/
def MemVectorStore.initializeStore (s : MemVectorStore) (op : VectorStoreOption) :
    Except StoreError Unit × MemVectorStore :=
  let s1 := { s with _option := op,
                     _lid_to_label := resizeFill s._lid_to_label op.max_elements kUnknownLabel }
  let s2 := s1.reserve_impl op.max_elements
  (Except.ok (), { s2 with _is_available := true })

/-- Source: `MemVectorStore::get_vacant(label)`. -/
def MemVectorStore.get_vacant (s : MemVectorStore) (label : Nat) :
    Except StoreError Nat × MemVectorStore :=
  if s._is_available = false then (Except.error StoreError.fatal, s)
  else if s._option.enable_replace_vacant = false then (Except.error StoreError.unavailable, s)
  else if s._deleted_map.isEmpty then (Except.error StoreError.resourceExhausted, s)
  else
    let lid := osetMin s._deleted_map
    match List.lookup label s._label_map with
    | some _ => (Except.error StoreError.alreadyExists, s)
    | none =>
      (Except.ok lid,
        { s with _deleted_map := osetRemove s._deleted_map lid
                 _lid_to_label := s._lid_to_label.set lid label
                 _deleted_size := s._deleted_size - 1
                 _label_map := mapInsert s._label_map label lid })

/-- Source: `MemVectorStore::prefer_add_vector(label)`: append at the high-water mark. -/
def MemVectorStore.prefer_add_vector (s : MemVectorStore) (label : Nat) :
    Except StoreError Nat × MemVectorStore :=
  if s._is_available = false then (Except.error StoreError.fatal, s)
  else if s._option.max_elements ≤ s._current_idx then
    (Except.error StoreError.resourceExhausted, s)
  else
    match List.lookup label s._label_map with
    | some _ => (Except.error StoreError.alreadyExists, s)
    | none =>
      let lid := s._current_idx
      let s1 := { s with _label_map := mapInsert s._label_map label lid
                         _lid_to_label := s._lid_to_label.set lid label }
      match s1.resize_impl (s._current_idx + 1) with
      | none => (Except.error StoreError.fatal, s1)
      | some s2 => (Except.ok lid, s2)

/-- Source: `MemVectorStore::set_vector(i, v)`. -/
def MemVectorStore.set_vector (s : MemVectorStore) (i : Nat) (v : List Nat) :
    Except StoreError Unit × MemVectorStore :=
  if s._is_available = false then (Except.error StoreError.fatal, s)
  else if s._current_idx ≤ i then (Except.error StoreError.fatal, s)
  else
    let bi := i / s._option.batch_size
    let si := i % s._option.batch_size
    match s._data[bi]? with
    | none => (Except.error StoreError.fatal, s)
    | some b => (Except.ok (), { s with _data := s._data.set bi (b.set_vector si v) })

/-- Source: `MemVectorStore::add_vector(label, query)`: try tombstone reuse, fall
back to appending, then copy the payload into the chosen slot. -/
def MemVectorStore.add_vector (s : MemVectorStore) (label : Nat) (query : List Nat) :
    Except StoreError Nat × MemVectorStore :=
  if s._is_available = false then (Except.error StoreError.fatal, s)
  else
    match s.get_vacant label with
    | (Except.ok lid, s1) =>
      match s1.set_vector lid query with
      | (Except.ok _, s2) => (Except.ok lid, s2)
      | (Except.error e, s2) => (Except.error e, s2)
    | (Except.error _, s1) =>
      match s1.prefer_add_vector label with
      | (Except.ok lid, s2) =>
        match s2.set_vector lid query with
        | (Except.ok _, s3) => (Except.ok lid, s3)
        | (Except.error e, s3) => (Except.error e, s3)
      | (Except.error e, s2) => (Except.error e, s2)

/-- Source: `MemVectorStore::remove_vector(label)`: soft delete; note that the label
map entry is NOT erased. -/
def MemVectorStore.remove_vector (s : MemVectorStore) (label : Nat) :
    Except StoreError Nat × MemVectorStore :=
  if s._is_available = false then (Except.error StoreError.fatal, s)
  else
    match List.lookup label s._label_map with
    | none => (Except.error StoreError.notFound, s)
    | some lid =>
      (Except.ok lid,
        { s with _lid_to_label := s._lid_to_label.set lid kUnknownLabel
                 _deleted_map := osetAdd s._deleted_map lid
                 _deleted_size := s._deleted_size + 1 })

/-- Source: `MemVectorStore::size()`. -/
def MemVectorStore.size (s : MemVectorStore) : Except StoreError Nat :=
  if s._is_available = false then Except.error StoreError.fatal
  else Except.ok (s._current_idx - s._deleted_size)

/-- Source: `MemVectorStore::deleted_size()`: note that, unlike the other queries, it
performs no `TLOG_CHECK(_is_available)`. -/
def MemVectorStore.deleted_size (s : MemVectorStore) : Except StoreError Nat :=
  Except.ok s._deleted_size

/-- Source: `MemVectorStore::current_index()`. -/
def MemVectorStore.current_index (s : MemVectorStore) : Except StoreError Nat :=
  if s._is_available = false then Except.error StoreError.fatal
  else Except.ok s._current_idx

/-- Source: `MemVectorStore::capacity_impl()`. -/
def MemVectorStore.capacity_impl (s : MemVectorStore) : Nat :=
  let sz := s._data.length * s._option.batch_size
  if s._option.max_elements < sz then s._option.max_elements else sz

/-- Source: `MemVectorStore::capacity()`: note that, unlike the other queries, it
performs no `TLOG_CHECK(_is_available)`. -/
def MemVectorStore.capacity (s : MemVectorStore) : Except StoreError Nat :=
  Except.ok s.capacity_impl

/-- Source: `MemVectorStore::available()`. -/
def MemVectorStore.available (s : MemVectorStore) : Except StoreError Nat :=
  if s._is_available = false then Except.error StoreError.fatal
  else Except.ok (s.capacity_impl - s._current_idx)

/-- Source: `MemVectorStore::exists_label(label)`. -/
def MemVectorStore.exists_label (s : MemVectorStore) (label : Nat) :
    Except StoreError Bool :=
  if s._is_available = false then Except.error StoreError.fatal
  else Except.ok (List.lookup label s._label_map).isSome

/-- Source: `MemVectorStore::is_deleted(loc)`. -/
def MemVectorStore.is_deleted (s : MemVectorStore) (loc : Nat) :
    Except StoreError Bool :=
  if s._is_available = false then Except.error StoreError.fatal
  else if s._current_idx ≤ loc then Except.error StoreError.fatal
  else Except.ok (s._lid_to_label.getD loc 0 == kUnknownLabel)

/-- Source: `MemVectorStore::get_label(loc)`. -/
def MemVectorStore.get_label (s : MemVectorStore) (loc : Nat) :
    Except StoreError Nat :=
  if s._is_available = false then Except.error StoreError.fatal
  else if s._current_idx ≤ loc then Except.error StoreError.fatal
  else Except.ok (s._lid_to_label.getD loc 0)

/-- Source: `MemVectorStore::get_vector(i)` (via `get_vector_internal`). -/
def MemVectorStore.get_vector (s : MemVectorStore) (i : Nat) :
    Except StoreError (List Nat) :=
  if s._is_available = false then Except.error StoreError.fatal
  else if s._current_idx ≤ i then Except.error StoreError.fatal
  else
    match s._data[i / s._option.batch_size]? with
    | none => Except.error StoreError.fatal
    | some b => Except.ok (b.atSlot (i % s._option.batch_size))

/-- Source: `MemVectorStore::resize(n)`. -/
def MemVectorStore.resize (s : MemVectorStore) (n : Nat) :
    Except StoreError Unit × MemVectorStore :=
  if s._is_available = false then (Except.error StoreError.fatal, s)
  else
    match s.resize_impl n with
    | none => (Except.error StoreError.fatal, s)
    | some s2 => (Except.ok (), s2)

/-- Source: `MemVectorStore::reserve(n)`. -/
def MemVectorStore.reserve (s : MemVectorStore) (n : Nat) :
    Except StoreError Unit × MemVectorStore :=
  if s._is_available = false then (Except.error StoreError.fatal, s)
  else (Except.ok (), s.reserve_impl n)

/-- Source: `MemVectorStore::shrink()`: pop trailing empty batches. -/
def MemVectorStore.shrink (s : MemVectorStore) :
    Except StoreError Unit × MemVectorStore :=
  if s._is_available = false then (Except.error StoreError.fatal, s)
  else
    (Except.ok (),
      { s with _data := (s._data.reverse.dropWhile (fun b => b.is_empty)).reverse })

/-- Source: `MemVectorStore::enable_vacant()`. -/
def MemVectorStore.enable_vacant (s : MemVectorStore) :
    Except StoreError Unit × MemVectorStore :=
  if s._is_available = false then (Except.error StoreError.fatal, s)
  else (Except.ok (), { s with _option := { s._option with enable_replace_vacant := true } })

/-- Source: `MemVectorStore::disable_vacant()`. -/
def MemVectorStore.disable_vacant (s : MemVectorStore) :
    Except StoreError Unit × MemVectorStore :=
  if s._is_available = false then (Except.error StoreError.fatal, s)
  else (Except.ok (), { s with _option := { s._option with enable_replace_vacant := false } })

/-- The two reader/writer locks of the store. -/
inductive LockId where
  | metaLock
  | labelMapLock
deriving Repr, DecidableEq

/-- Lock-acquisition order of `MemVectorStore::prefer_add_vector`, transcribed
from the source: `std::unique_lock lock(_label_map_lock);` (line 119) is taken
before `std::unique_lock lm(_meta_lock);` (line 121). -/
def prefer_add_vector_locks : List LockId := [LockId.labelMapLock, LockId.metaLock]

/-- Lock-acquisition order of `MemVectorStore::remove_vector` (lines 142-143):
`_meta_lock` before `_label_map_lock`. -/
def remove_vector_locks : List LockId := [LockId.metaLock, LockId.labelMapLock]

/-- Lock-acquisition order of `MemVectorStore::get_vacant` (lines 298-299):
`_meta_lock` before `_label_map_lock`. -/
def get_vacant_locks : List LockId := [LockId.metaLock, LockId.labelMapLock]

/-! ### Batch-chain shape -/

/-- Default batch used with `List.getD`. -/
def dfltBatch : VectorBatch := { cap := 0, cursor := 0, bytes := [] }

/-- The batch chain is in the canonical "prefix-filled" shape for mark `cur`:
every batch has capacity `bs` and its fill cursor is clamped so that the
batches jointly hold exactly the first `cur` locations. -/
def dataShape (data : List VectorBatch) (bs cur : Nat) : Prop :=
  ∀ i, i < data.length →
    (data.getD i dfltBatch).cap = bs ∧
    (data.getD i dfltBatch).cursor = min bs (cur - i * bs)

instance dataShapeDecidable (data : List VectorBatch) (bs cur : Nat) :
    Decidable (dataShape data bs cur) := by
  unfold dataShape
  infer_instance

/-- The bytes currently stored at location `loc`. -/
def slotBytes (s : MemVectorStore) (loc : Nat) : List Nat :=
  ((s._data.getD (loc / s._option.batch_size) dfltBatch).bytes).getD
    (loc % s._option.batch_size) []

/-! ### The reachable-state invariant -/

/-- Invariant maintained by any `add_vector`/`remove_vector` trace: `R`
over-approximates the labels removed so far.  `dmIff` states that the
tombstone set is exactly the set of below-the-mark locations whose
reverse-map entry is the unknown-label sentinel; `staleMem` states that a
label-map entry whose location no longer carries that label belongs to a
previously removed label. -/
structure StoreInv (R : List Nat) (s : MemVectorStore) : Prop where
  avail : s._is_available = true
  bsPos : 1 ≤ s._option.batch_size
  lidLen : s._lid_to_label.length = s._option.max_elements
  curLe : s._current_idx ≤ s._option.max_elements
  dsEq : s._deleted_size = s._deleted_map.length
  dmSorted : isSortedLT s._deleted_map = true
  dmIff : ∀ x, x ∈ s._deleted_map ↔
    (x < s._current_idx ∧ s._lid_to_label.getD x 0 = kUnknownLabel)
  mapLt : ∀ p ∈ s._label_map, p.2 < s._current_idx
  mapKeysNe : ∀ p ∈ s._label_map, p.1 ≠ kUnknownLabel
  staleMem : ∀ p ∈ s._label_map, s._lid_to_label.getD p.2 0 ≠ p.1 → p.1 ∈ R
  capGe : s._option.max_elements ≤ s._data.length * s._option.batch_size
  shape : dataShape s._data s._option.batch_size s._current_idx

/-! ### Traces of add/remove operations -/

/-- One store operation of the C3 trace language. -/
inductive StoreOp where
  | addV (label : Nat) (bytes : List Nat)
  | removeV (label : Nat)
deriving Repr, DecidableEq

def runOp (s : MemVectorStore) : StoreOp → MemVectorStore
  | StoreOp.addV l b => (s.add_vector l b).2
  | StoreOp.removeV l => (s.remove_vector l).2

def runOps : MemVectorStore → List StoreOp → MemVectorStore
  | s, [] => s
  | s, op :: t => runOps (runOp s op) t

def addLabels : List StoreOp → List Nat
  | [] => []
  | StoreOp.addV l _ :: t => l :: addLabels t
  | StoreOp.removeV _ :: t => addLabels t

def removeLabels : List StoreOp → List Nat
  | [] => []
  | StoreOp.addV _ _ :: t => removeLabels t
  | StoreOp.removeV l :: t => l :: removeLabels t

/-- The trace discipline of claim C3: pairwise-distinct labels, each label
added at most once and removed at most once, and no caller uses the reserved
unknown-label sentinel. -/
def validOps (t : List StoreOp) : Prop :=
  (addLabels t).Nodup ∧ (removeLabels t).Nodup ∧ ∀ l ∈ addLabels t, l ≠ kUnknownLabel

/-- Number of live labels: locations below the high-water mark whose
reverse-map entry carries a real label. -/
def liveSlots (s : MemVectorStore) : Nat :=
  ((List.range s._current_idx).filter
    (fun l => !(s._lid_to_label.getD l 0 == kUnknownLabel))).length

/-- Number of retired, not-yet-reused locations: locations below the
high-water mark whose reverse-map entry is the unknown-label sentinel. -/
def retiredSlots (s : MemVectorStore) : Nat :=
  ((List.range s._current_idx).filter
    (fun l => s._lid_to_label.getD l 0 == kUnknownLabel)).length

/-! ### Basic list helpers -/

theorem getD_set_self {α : Type} : ∀ (l : List α) (i : Nat) (v d : α),
    i < l.length → (l.set i v).getD i d = v := by
  intro l
  induction l with
  | nil => intro i v d h; simp at h
  | cons a t ih =>
    intro i v d h
    cases i with
    | zero => rfl
    | succ j => exact ih j v d (by simpa using h)

theorem getD_set_ne {α : Type} : ∀ (l : List α) (i j : Nat) (v d : α),
    i ≠ j → (l.set i v).getD j d = l.getD j d := by
  intro l
  induction l with
  | nil => intro i j v d _; simp [List.set]
  | cons a t ih =>
    intro i j v d hne
    cases i with
    | zero =>
      cases j with
      | zero => exact absurd rfl hne
      | succ k => rfl
    | succ i2 =>
      cases j with
      | zero => rfl
      | succ k => exact ih i2 k v d (fun h => hne (by rw [h]))

theorem lookup_mem : ∀ (m : List (Nat × Nat)) (k v : Nat),
    List.lookup k m = some v → (k, v) ∈ m := by
  intro m
  induction m with
  | nil => intro k v h; simp [List.lookup] at h
  | cons p t ih =>
    intro k v h
    obtain ⟨a, b⟩ := p
    by_cases hk : k = a
    · subst hk
      simp only [List.lookup, beq_self_eq_true] at h
      cases h
      exact List.mem_cons_self _ _
    · have hb : (k == a) = false := beq_false_of_ne hk
      simp only [List.lookup, hb] at h
      exact List.mem_cons_of_mem _ (ih k v h)

theorem lookup_none_not_key : ∀ (m : List (Nat × Nat)) (k : Nat),
    List.lookup k m = none → ∀ p ∈ m, p.1 ≠ k := by
  intro m
  induction m with
  | nil => intro k _ p hp; simp at hp
  | cons q t ih =>
    intro k h p hp
    obtain ⟨a, b⟩ := q
    by_cases hk : k = a
    · subst hk
      simp only [List.lookup, beq_self_eq_true] at h
      exact Option.noConfusion h
    · have hb : (k == a) = false := beq_false_of_ne hk
      simp only [List.lookup, hb] at h
      rcases List.mem_cons.mp hp with hp | hp
      · subst hp; exact fun he => hk he.symm
      · exact ih k h p hp

theorem mapInsert_of_none (m : List (Nat × Nat)) (k v : Nat)
    (h : List.lookup k m = none) : mapInsert m k v = m ++ [(k, v)] := by
  simp [mapInsert, h]

theorem lookup_append_none : ∀ (m m2 : List (Nat × Nat)) (k : Nat),
    List.lookup k m = none → List.lookup k (m ++ m2) = List.lookup k m2 := by
  intro m
  induction m with
  | nil => intro m2 k _; rfl
  | cons q t ih =>
    intro m2 k h
    obtain ⟨a, b⟩ := q
    by_cases hk : k = a
    · subst hk
      simp only [List.lookup, beq_self_eq_true] at h
      exact Option.noConfusion h
    · have hb : (k == a) = false := beq_false_of_ne hk
      simp only [List.lookup, hb] at h
      simp only [List.cons_append, List.lookup, hb]
      exact ih m2 k h

theorem lookup_mapInsert_self (m : List (Nat × Nat)) (k v : Nat)
    (h : List.lookup k m = none) :
    List.lookup k (mapInsert m k v) = some v := by
  rw [mapInsert_of_none m k v h, lookup_append_none m _ k h]
  simp [List.lookup]

theorem lookup_some_of_mem : ∀ (m : List (Nat × Nat)) (k v : Nat),
    (k, v) ∈ m → (List.lookup k m).isSome = true := by
  intro m
  induction m with
  | nil => intro k v h; simp at h
  | cons q t ih =>
    intro k v h
    obtain ⟨a, b⟩ := q
    by_cases hk : k = a
    · subst hk
      simp only [List.lookup, beq_self_eq_true, Option.isSome_some]
    · have hb : (k == a) = false := beq_false_of_ne hk
      simp only [List.lookup, hb]
      rcases List.mem_cons.mp h with h | h
      · exact absurd (congrArg Prod.fst h) hk
      · exact ih k v h

/-! ### Ordered-set helpers -/

theorem mem_osetAdd : ∀ (l : List Nat) (x y : Nat),
    y ∈ osetAdd l x ↔ y = x ∨ y ∈ l := by
  intro l
  induction l with
  | nil => intro x y; simp [osetAdd]
  | cons a t ih =>
    intro x y
    simp only [osetAdd]
    by_cases h1 : x < a
    · rw [if_pos h1]
      constructor
      · intro h
        rcases List.mem_cons.mp h with h | h
        · exact Or.inl h
        · exact Or.inr h
      · intro h
        rcases h with h | h
        · exact List.mem_cons.mpr (Or.inl h)
        · exact List.mem_cons.mpr (Or.inr h)
    · rw [if_neg h1]
      by_cases h2 : x = a
      · rw [if_pos h2]
        subst h2
        constructor
        · intro h; exact Or.inr h
        · intro h
          rcases h with h | h
          · exact List.mem_cons.mpr (Or.inl h)
          · exact h
      · rw [if_neg h2]
        constructor
        · intro h
          rcases List.mem_cons.mp h with h | h
          · exact Or.inr (List.mem_cons.mpr (Or.inl h))
          · rcases (ih x y).mp h with h | h
            · exact Or.inl h
            · exact Or.inr (List.mem_cons.mpr (Or.inr h))
        · intro h
          rcases h with h | h
          · exact List.mem_cons.mpr (Or.inr ((ih x y).mpr (Or.inl h)))
          · rcases List.mem_cons.mp h with h | h
            · exact List.mem_cons.mpr (Or.inl h)
            · exact List.mem_cons.mpr (Or.inr ((ih x y).mpr (Or.inr h)))

theorem length_osetAdd_of_not_mem : ∀ (l : List Nat) (x : Nat),
    x ∉ l → (osetAdd l x).length = l.length + 1 := by
  intro l
  induction l with
  | nil => intro x _; rfl
  | cons a t ih =>
    intro x hx
    simp only [osetAdd]
    by_cases h1 : x < a
    · rw [if_pos h1]; rfl
    · rw [if_neg h1]
      by_cases h2 : x = a
      · exact absurd (h2 ▸ List.mem_cons_self a t) hx
      · rw [if_neg h2]
        simp only [List.length_cons]
        rw [ih x (fun hm => hx (List.mem_cons_of_mem a hm))]

theorem osetAdd_ne_nil (l : List Nat) (x : Nat) : osetAdd l x ≠ [] := by
  cases l with
  | nil => simp [osetAdd]
  | cons a t =>
    simp only [osetAdd]
    by_cases h1 : x < a
    · rw [if_pos h1]; simp
    · rw [if_neg h1]
      by_cases h2 : x = a
      · rw [if_pos h2]; simp
      · rw [if_neg h2]; simp

theorem sorted_cons_lt (x : Nat) (l : List Nat) (h : isSortedLT (x :: l) = true) :
    ∀ y ∈ l, x < y := by
  induction l generalizing x with
  | nil => intro y hy; simp at hy
  | cons b t ih =>
    intro y hy
    simp only [isSortedLT, Bool.and_eq_true, decide_eq_true_eq] at h
    rcases List.mem_cons.mp hy with hy | hy
    · subst hy; exact h.1
    · exact Nat.lt_trans h.1 (ih b h.2 y hy)

theorem sorted_tail (x : Nat) (l : List Nat) (h : isSortedLT (x :: l) = true) :
    isSortedLT l = true := by
  cases l with
  | nil => rfl
  | cons b t =>
    simp only [isSortedLT, Bool.and_eq_true, decide_eq_true_eq] at h
    exact h.2

theorem sorted_nodup : ∀ (l : List Nat), isSortedLT l = true → l.Nodup := by
  intro l
  induction l with
  | nil => intro _; exact List.nodup_nil
  | cons a t ih =>
    intro h
    refine List.nodup_cons.mpr ⟨?_, ih (sorted_tail a t h)⟩
    intro hmem
    exact absurd (sorted_cons_lt a t h a hmem) (Nat.lt_irrefl a)

theorem sorted_cons_of_lt (x : Nat) (l : List Nat) (hs : isSortedLT l = true)
    (hlt : ∀ y ∈ l, x < y) : isSortedLT (x :: l) = true := by
  cases l with
  | nil => rfl
  | cons b t =>
    simp only [isSortedLT, Bool.and_eq_true, decide_eq_true_eq]
    exact ⟨hlt b (List.mem_cons_self b t), hs⟩

theorem sorted_osetAdd : ∀ (l : List Nat) (x : Nat),
    isSortedLT l = true → isSortedLT (osetAdd l x) = true := by
  intro l
  induction l with
  | nil => intro x _; rfl
  | cons a t ih =>
    intro x hs
    simp only [osetAdd]
    by_cases h1 : x < a
    · rw [if_pos h1]
      refine sorted_cons_of_lt x (a :: t) hs ?_
      intro y hy
      rcases List.mem_cons.mp hy with hy | hy
      · subst hy; exact h1
      · exact Nat.lt_trans h1 (sorted_cons_lt a t hs y hy)
    · rw [if_neg h1]
      by_cases h2 : x = a
      · rw [if_pos h2]; exact hs
      · rw [if_neg h2]
        have hax : a < x := by omega
        refine sorted_cons_of_lt a (osetAdd t x) (ih x (sorted_tail a t hs)) ?_
        intro y hy
        rcases (mem_osetAdd t x y).mp hy with hy | hy
        · subst hy; exact hax
        · exact sorted_cons_lt a t hs y hy

theorem erase_cons_self (a : Nat) (t : List Nat) : (a :: t).erase a = t :=
  List.erase_cons_head a t

theorem getElem?_some_getD {α : Type} (l : List α) (i : Nat) (d : α) :
    i < l.length → l[i]? = some (l.getD i d) := by
  induction l generalizing i with
  | nil => intro h; simp at h
  | cons a t ih =>
    intro h
    cases i with
    | zero => simp [List.getD]
    | succ j => simpa [List.getD] using ih j (by simpa using h)

theorem getD_oob {α : Type} (l : List α) (i : Nat) (d : α) :
    l.length ≤ i → l.getD i d = d := by
  induction l generalizing i with
  | nil => intro _; simp [List.getD]
  | cons a t ih =>
    intro h
    cases i with
    | zero => simp at h
    | succ j => simpa [List.getD] using ih j (by simpa using h)

theorem growLoop_spec : ∀ (fuel : Nat) (data : List VectorBatch) (bs w n : Nat),
    1 ≤ bs → dataShape data bs w → w < n → n ≤ data.length * bs →
    data.length - w / bs < fuel →
    ∃ d, growLoop fuel data (w / bs) (n - w) = some d ∧ dataShape d bs n ∧
      d.length = data.length ∧
      ∀ i, (d.getD i dfltBatch).bytes = (data.getD i dfltBatch).bytes := by
  intro fuel
  induction fuel with
  | zero =>
    intro data bs w n hbs hsh hwn hcap hfuel
    exfalso
    have hidx : w / bs < data.length := by
      by_contra hc
      push_neg at hc
      have hm1 : data.length * bs ≤ w / bs * bs := Nat.mul_le_mul_right bs hc
      have hm2 : w / bs * bs ≤ w := Nat.div_mul_le_self w bs
      omega
    omega
  | succ f ih =>
    intro data bs w n hbs hsh hwn hcap hfuel
    have hmod : w % bs < bs := Nat.mod_lt _ hbs
    have hdm : bs * (w / bs) + w % bs = w := Nat.div_add_mod w bs
    have hcomm : w / bs * bs = bs * (w / bs) := Nat.mul_comm _ _
    have hidx_lt : w / bs < data.length := by
      by_contra hc
      push_neg at hc
      have hm1 : data.length * bs ≤ w / bs * bs := Nat.mul_le_mul_right bs hc
      omega
    have hsome : data[w / bs]? = some (data.getD (w / bs) dfltBatch) :=
      getElem?_some_getD data (w / bs) dfltBatch hidx_lt
    have hcap_idx : (data.getD (w / bs) dfltBatch).cap = bs := (hsh _ hidx_lt).1
    have hcur_idx : (data.getD (w / bs) dfltBatch).cursor = w % bs := by
      have h2 := (hsh _ hidx_lt).2
      omega
    have havail : (data.getD (w / bs) dfltBatch).availableSlots = bs - w % bs := by
      simp only [VectorBatch.availableSlots, hcap_idx, hcur_idx]
    obtain ⟨k, hk⟩ : ∃ k, n - w = k + 1 := ⟨n - w - 1, by omega⟩
    rw [hk]
    simp only [growLoop, hsome]
    by_cases hle : k + 1 ≤ (data.getD (w / bs) dfltBatch).availableSlots
    · rw [if_pos hle]
      refine ⟨_, rfl, ?_, ?_, ?_⟩
      · intro i hi
        rw [List.length_set] at hi
        by_cases hii : i = w / bs
        · subst hii
          rw [getD_set_self data _ _ dfltBatch hidx_lt]
          constructor
          · exact hcap_idx
          · simp only [VectorBatch.resizeCursor, VectorBatch.size]
            rw [hcur_idx]
            rw [havail] at hle
            omega
        · rw [getD_set_ne data _ i _ dfltBatch (fun h => hii h.symm)]
          refine ⟨(hsh i hi).1, ?_⟩
          have h2 := (hsh i hi).2
          rw [havail] at hle
          rcases Nat.lt_or_ge i (w / bs) with hlt | hge
          · have hm1 : (i + 1) * bs ≤ w / bs * bs :=
              Nat.mul_le_mul_right bs (by omega)
            have he : (i + 1) * bs = i * bs + bs := by ring
            omega
          · have hgt : w / bs + 1 ≤ i := by omega
            have hm1 : (w / bs + 1) * bs ≤ i * bs := Nat.mul_le_mul_right bs hgt
            have he : (w / bs + 1) * bs = w / bs * bs + bs := by ring
            omega
      · exact List.length_set data _ _
      · intro i
        by_cases hii : i = w / bs
        · subst hii
          rw [getD_set_self data _ _ dfltBatch hidx_lt]
          rfl
        · rw [getD_set_ne data _ i _ dfltBatch (fun h => hii h.symm)]
    · rw [if_neg hle]
      rw [havail] at hle
      have hsh1 : dataShape
          (data.set (w / bs) ((data.getD (w / bs) dfltBatch).resizeCursor
            (data.getD (w / bs) dfltBatch).cap)) bs ((w / bs + 1) * bs) := by
        intro i hi
        rw [List.length_set] at hi
        have he : (w / bs + 1) * bs = w / bs * bs + bs := by ring
        by_cases hii : i = w / bs
        · subst hii
          rw [getD_set_self data _ _ dfltBatch hidx_lt]
          refine ⟨hcap_idx, ?_⟩
          simp only [VectorBatch.resizeCursor, hcap_idx]
          omega
        · rw [getD_set_ne data _ i _ dfltBatch (fun h => hii h.symm)]
          refine ⟨(hsh i hi).1, ?_⟩
          have h2 := (hsh i hi).2
          rcases Nat.lt_or_ge i (w / bs) with hlt | hge
          · have hm1 : (i + 1) * bs ≤ w / bs * bs :=
              Nat.mul_le_mul_right bs (by omega)
            have he2 : (i + 1) * bs = i * bs + bs := by ring
            omega
          · have hgt : w / bs + 1 ≤ i := by omega
            have hm1 : (w / bs + 1) * bs ≤ i * bs := Nat.mul_le_mul_right bs hgt
            omega
      have hdiv : (w / bs + 1) * bs / bs = w / bs + 1 := Nat.mul_div_cancel _ (by omega)
      have hwn1 : (w / bs + 1) * bs < n := by
        have he : (w / bs + 1) * bs = w / bs * bs + bs := by ring
        omega
      have hcap1 : n ≤ (data.set (w / bs) ((data.getD (w / bs) dfltBatch).resizeCursor
          (data.getD (w / bs) dfltBatch).cap)).length * bs := by
        rw [List.length_set]
        exact hcap
      have hfuel1 : (data.set (w / bs) ((data.getD (w / bs) dfltBatch).resizeCursor
          (data.getD (w / bs) dfltBatch).cap)).length - (w / bs + 1) * bs / bs < f := by
        rw [List.length_set, hdiv]
        omega
      obtain ⟨d, hgrow, hshp, hlen, hbytes⟩ :=
        ih _ bs ((w / bs + 1) * bs) n hbs hsh1 hwn1 hcap1 hfuel1
      rw [hdiv] at hgrow
      have harg : k + 1 - (data.getD (w / bs) dfltBatch).availableSlots
          = n - (w / bs + 1) * bs := by
        rw [havail]
        have he : (w / bs + 1) * bs = w / bs * bs + bs := by ring
        omega
      rw [harg]
      refine ⟨d, hgrow, hshp, ?_, ?_⟩
      · rw [hlen, List.length_set]
      · intro i
        rw [hbytes i]
        by_cases hii : i = w / bs
        · subst hii
          rw [getD_set_self data _ _ dfltBatch hidx_lt]
          rfl
        · rw [getD_set_ne data _ i _ dfltBatch (fun h => hii h.symm)]

theorem shrinkLoop_spec : ∀ (i : Nat) (data : List VectorBatch) (bs w n : Nat),
    1 ≤ bs → dataShape data bs w →
    i * bs ≤ w → w ≤ (i + 1) * bs → n < w → i < data.length →
    ∃ d, shrinkLoop i data (w - n) = some d ∧ dataShape d bs n ∧
      d.length = data.length ∧
      ∀ j, (d.getD j dfltBatch).bytes = (data.getD j dfltBatch).bytes := by
  intro i
  induction i with
  | zero =>
    intro data bs w n hbs hsh hlo hhi hn hlen
    have hsome : data[0]? = some (data.getD 0 dfltBatch) :=
      getElem?_some_getD data 0 dfltBatch hlen
    have hcap0 : (data.getD 0 dfltBatch).cap = bs := (hsh 0 hlen).1
    have hcur0 : (data.getD 0 dfltBatch).cursor = w := by
      have h2 := (hsh 0 hlen).2
      have he : (0 + 1) * bs = bs := by ring
      omega
    obtain ⟨k, hk⟩ : ∃ k, w - n = k + 1 := ⟨w - n - 1, by omega⟩
    rw [hk]
    simp only [shrinkLoop, hsome]
    have hle : k + 1 ≤ (data.getD 0 dfltBatch).cursor := by omega
    rw [if_pos hle]
    refine ⟨_, rfl, ?_, List.length_set data _ _, ?_⟩
    · intro j hj
      rw [List.length_set] at hj
      by_cases hjj : j = 0
      · subst hjj
        rw [getD_set_self data _ _ dfltBatch hlen]
        refine ⟨hcap0, ?_⟩
        simp only [VectorBatch.resizeCursor]
        have he : (0 + 1) * bs = bs := by ring
        omega
      · rw [getD_set_ne data _ j _ dfltBatch (fun h => hjj h.symm)]
        refine ⟨(hsh j hj).1, ?_⟩
        have h2 := (hsh j hj).2
        have hj1 : 1 ≤ j := by omega
        have hm1 : 1 * bs ≤ j * bs := Nat.mul_le_mul_right bs hj1
        have he : (0 + 1) * bs = bs := by ring
        omega
    · intro j
      by_cases hjj : j = 0
      · subst hjj
        rw [getD_set_self data _ _ dfltBatch hlen]
        rfl
      · rw [getD_set_ne data _ j _ dfltBatch (fun h => hjj h.symm)]
  | succ j ih =>
    intro data bs w n hbs hsh hlo hhi hn hlen
    have hsome : data[j + 1]? = some (data.getD (j + 1) dfltBatch) :=
      getElem?_some_getD data (j + 1) dfltBatch hlen
    have hcapi : (data.getD (j + 1) dfltBatch).cap = bs := (hsh _ hlen).1
    have he1 : (j + 1) * bs = j * bs + bs := by ring
    have he2 : (j + 1 + 1) * bs = j * bs + bs + bs := by ring
    have hcuri : (data.getD (j + 1) dfltBatch).cursor = w - (j + 1) * bs := by
      have h2 := (hsh _ hlen).2
      omega
    obtain ⟨k, hk⟩ : ∃ k, w - n = k + 1 := ⟨w - n - 1, by omega⟩
    rw [hk]
    simp only [shrinkLoop, hsome]
    by_cases hle : k + 1 ≤ (data.getD (j + 1) dfltBatch).cursor
    · rw [if_pos hle]
      refine ⟨_, rfl, ?_, List.length_set data _ _, ?_⟩
      · intro j2 hj2
        rw [List.length_set] at hj2
        by_cases hjj : j2 = j + 1
        · subst hjj
          rw [getD_set_self data _ _ dfltBatch hlen]
          refine ⟨hcapi, ?_⟩
          simp only [VectorBatch.resizeCursor]
          omega
        · rw [getD_set_ne data _ j2 _ dfltBatch (fun h => hjj h.symm)]
          refine ⟨(hsh j2 hj2).1, ?_⟩
          have h2 := (hsh j2 hj2).2
          rcases Nat.lt_or_ge j2 (j + 1) with hlt | hge
          · have hm1 : (j2 + 1) * bs ≤ (j + 1) * bs :=
              Nat.mul_le_mul_right bs (by omega)
            have he3 : (j2 + 1) * bs = j2 * bs + bs := by ring
            omega
          · have hm1 : (j + 1 + 1) * bs ≤ j2 * bs := Nat.mul_le_mul_right bs (by omega)
            omega
      · intro j2
        by_cases hjj : j2 = j + 1
        · subst hjj
          rw [getD_set_self data _ _ dfltBatch hlen]
          rfl
        · rw [getD_set_ne data _ j2 _ dfltBatch (fun h => hjj h.symm)]
    · rw [if_neg hle]
      have hn2 : n < (j + 1) * bs := by omega
      have hsh1 : dataShape (data.set (j + 1) ((data.getD (j + 1) dfltBatch).resizeCursor 0))
          bs ((j + 1) * bs) := by
        intro j2 hj2
        rw [List.length_set] at hj2
        by_cases hjj : j2 = j + 1
        · subst hjj
          rw [getD_set_self data _ _ dfltBatch hlen]
          refine ⟨hcapi, ?_⟩
          simp only [VectorBatch.resizeCursor]
          omega
        · rw [getD_set_ne data _ j2 _ dfltBatch (fun h => hjj h.symm)]
          refine ⟨(hsh j2 hj2).1, ?_⟩
          have h2 := (hsh j2 hj2).2
          rcases Nat.lt_or_ge j2 (j + 1) with hlt | hge
          · have hm1 : (j2 + 1) * bs ≤ (j + 1) * bs :=
              Nat.mul_le_mul_right bs (by omega)
            have he3 : (j2 + 1) * bs = j2 * bs + bs := by ring
            omega
          · have hm1 : (j + 1 + 1) * bs ≤ j2 * bs := Nat.mul_le_mul_right bs (by omega)
            omega
      have hlen1 : j < (data.set (j + 1) ((data.getD (j + 1) dfltBatch).resizeCursor 0)).length := by
        rw [List.length_set]
        omega
      obtain ⟨d, hrun, hshp, hlen2, hbytes⟩ :=
        ih _ bs ((j + 1) * bs) n hbs hsh1 (by omega) (by omega) hn2 hlen1
      have harg : k + 1 - (data.getD (j + 1) dfltBatch).cursor = (j + 1) * bs - n := by
        omega
      rw [harg]
      refine ⟨d, hrun, hshp, ?_, ?_⟩
      · rw [hlen2, List.length_set]
      · intro j2
        rw [hbytes j2]
        by_cases hjj : j2 = j + 1
        · subst hjj
          rw [getD_set_self data _ _ dfltBatch hlen]
          rfl
        · rw [getD_set_ne data _ j2 _ dfltBatch (fun h => hjj h.symm)]

theorem reserveAux_no_grow (fuel n : Nat) (s : MemVectorStore)
    (h : n ≤ s._data.length * s._option.batch_size) : reserveAux fuel n s = s := by
  cases fuel with
  | zero => rfl
  | succ f =>
    simp only [reserveAux]
    rw [if_neg (by omega)]

theorem reserve_impl_no_grow (s : MemVectorStore) (n0 : Nat)
    (h : min n0 s._option.max_elements ≤ s._data.length * s._option.batch_size) :
    s.reserve_impl n0 = s := by
  simp only [MemVectorStore.reserve_impl]
  exact reserveAux_no_grow _ _ s h

theorem resize_impl_grow (s : MemVectorStore) (n : Nat)
    (hbs : 1 ≤ s._option.batch_size)
    (hsh : dataShape s._data s._option.batch_size s._current_idx)
    (hlt : s._current_idx < n)
    (hn : n ≤ s._data.length * s._option.batch_size)
    (hmax : s._option.max_elements ≤ s._data.length * s._option.batch_size) :
    ∃ d, s.resize_impl n = some { s with _data := d, _current_idx := n } ∧
      dataShape d s._option.batch_size n ∧ d.length = s._data.length ∧
      ∀ i, (d.getD i dfltBatch).bytes = (s._data.getD i dfltBatch).bytes := by
  have hres : s.reserve_impl n = s := reserve_impl_no_grow s n (by omega)
  obtain ⟨d, hrun, hshp, hlen, hbytes⟩ :=
    growLoop_spec (s._data.length + 1) s._data s._option.batch_size s._current_idx n
      hbs hsh hlt hn (Nat.lt_succ_of_le (Nat.sub_le _ _))
  refine ⟨d, ?_, hshp, hlen, hbytes⟩
  simp only [MemVectorStore.resize_impl]
  rw [if_neg (show ¬ n = s._current_idx by omega)]
  rw [if_neg (show ¬ n < s._current_idx by omega)]
  simp only [hres, hrun]

theorem resize_impl_shrink (s : MemVectorStore) (n : Nat)
    (hbs : 1 ≤ s._option.batch_size)
    (hsh : dataShape s._data s._option.batch_size s._current_idx)
    (hlt : n < s._current_idx)
    (hcur : s._current_idx < s._data.length * s._option.batch_size) :
    ∃ d, s.resize_impl n = some { s with _data := d, _current_idx := n } ∧
      dataShape d s._option.batch_size n ∧ d.length = s._data.length ∧
      ∀ i, (d.getD i dfltBatch).bytes = (s._data.getD i dfltBatch).bytes := by
  have hdm : s._option.batch_size * (s._current_idx / s._option.batch_size)
      + s._current_idx % s._option.batch_size = s._current_idx :=
    Nat.div_add_mod _ _
  have hmod : s._current_idx % s._option.batch_size < s._option.batch_size :=
    Nat.mod_lt _ hbs
  have hcomm : s._current_idx / s._option.batch_size * s._option.batch_size
      = s._option.batch_size * (s._current_idx / s._option.batch_size) := Nat.mul_comm _ _
  have hi1 : s._current_idx / s._option.batch_size * s._option.batch_size ≤ s._current_idx :=
    Nat.div_mul_le_self _ _
  have he : (s._current_idx / s._option.batch_size + 1) * s._option.batch_size
      = s._current_idx / s._option.batch_size * s._option.batch_size + s._option.batch_size := by
    ring
  have hilen : s._current_idx / s._option.batch_size < s._data.length := by
    by_contra hc
    push_neg at hc
    have hm1 : s._data.length * s._option.batch_size
        ≤ s._current_idx / s._option.batch_size * s._option.batch_size :=
      Nat.mul_le_mul_right _ hc
    omega
  obtain ⟨d, hrun, hshp, hlen, hbytes⟩ :=
    shrinkLoop_spec (s._current_idx / s._option.batch_size) s._data s._option.batch_size
      s._current_idx n hbs hsh (by omega) (by omega) hlt hilen
  refine ⟨d, ?_, hshp, hlen, hbytes⟩
  simp only [MemVectorStore.resize_impl]
  rw [if_neg (show ¬ n = s._current_idx by omega)]
  rw [if_pos hlt]
  simp only [hrun]

/-! ### Operation characterizations -/

theorem get_vacant_disabled (s : MemVectorStore) (label : Nat)
    (hav : s._is_available = true) (hen : s._option.enable_replace_vacant = false) :
    s.get_vacant label = (Except.error StoreError.unavailable, s) := by
  simp [MemVectorStore.get_vacant, hav, hen]

theorem get_vacant_empty (s : MemVectorStore) (label : Nat)
    (hav : s._is_available = true) (hen : s._option.enable_replace_vacant = true)
    (hdm : s._deleted_map = []) :
    s.get_vacant label = (Except.error StoreError.resourceExhausted, s) := by
  simp [MemVectorStore.get_vacant, hav, hen, hdm]

theorem get_vacant_conflict (s : MemVectorStore) (label v : Nat)
    (hav : s._is_available = true) (hen : s._option.enable_replace_vacant = true)
    (hdm : s._deleted_map ≠ []) (hsome : List.lookup label s._label_map = some v) :
    s.get_vacant label = (Except.error StoreError.alreadyExists, s) := by
  simp only [MemVectorStore.get_vacant, hav, hen]
  rw [if_neg (by simp), if_neg (by simp), if_neg (by simp [List.isEmpty_iff, hdm])]
  simp only [hsome]

theorem get_vacant_success (s : MemVectorStore) (label : Nat)
    (hav : s._is_available = true) (hen : s._option.enable_replace_vacant = true)
    (hdm : s._deleted_map ≠ []) (hnone : List.lookup label s._label_map = none) :
    s.get_vacant label = (Except.ok (osetMin s._deleted_map),
      { s with _deleted_map := osetRemove s._deleted_map (osetMin s._deleted_map)
               _lid_to_label := s._lid_to_label.set (osetMin s._deleted_map) label
               _deleted_size := s._deleted_size - 1
               _label_map := mapInsert s._label_map label (osetMin s._deleted_map) }) := by
  simp only [MemVectorStore.get_vacant, hav, hen]
  rw [if_neg (by simp), if_neg (by simp), if_neg (by simp [List.isEmpty_iff, hdm])]
  simp only [hnone]

theorem prefer_full (s : MemVectorStore) (label : Nat)
    (hav : s._is_available = true)
    (hfull : s._option.max_elements ≤ s._current_idx) :
    s.prefer_add_vector label = (Except.error StoreError.resourceExhausted, s) := by
  simp only [MemVectorStore.prefer_add_vector, hav]
  rw [if_neg (by simp), if_pos hfull]

theorem prefer_conflict (s : MemVectorStore) (label v : Nat)
    (hav : s._is_available = true)
    (hcur : s._current_idx < s._option.max_elements)
    (hsome : List.lookup label s._label_map = some v) :
    s.prefer_add_vector label = (Except.error StoreError.alreadyExists, s) := by
  simp only [MemVectorStore.prefer_add_vector, hav]
  rw [if_neg (by simp), if_neg (by omega)]
  simp only [hsome]

theorem prefer_success (s : MemVectorStore) (label : Nat)
    (hav : s._is_available = true) (hbs : 1 ≤ s._option.batch_size)
    (hsh : dataShape s._data s._option.batch_size s._current_idx)
    (hcap : s._option.max_elements ≤ s._data.length * s._option.batch_size)
    (hcur : s._current_idx < s._option.max_elements)
    (hnone : List.lookup label s._label_map = none) :
    ∃ d, s.prefer_add_vector label = (Except.ok s._current_idx,
      { s with _label_map := mapInsert s._label_map label s._current_idx
               _lid_to_label := s._lid_to_label.set s._current_idx label
               _data := d
               _current_idx := s._current_idx + 1 }) ∧
      dataShape d s._option.batch_size (s._current_idx + 1) ∧
      d.length = s._data.length ∧
      ∀ i, (d.getD i dfltBatch).bytes = (s._data.getD i dfltBatch).bytes := by
  obtain ⟨d, hri, hshp, hlen, hbytes⟩ :=
    resize_impl_grow
      { s with _label_map := mapInsert s._label_map label s._current_idx
               _lid_to_label := s._lid_to_label.set s._current_idx label }
      (s._current_idx + 1) hbs hsh (Nat.lt_succ_self _)
      (show s._current_idx + 1 ≤ s._data.length * s._option.batch_size by omega)
      (show s._option.max_elements ≤ s._data.length * s._option.batch_size from hcap)
  dsimp only at hri
  rw [hav] at hri
  refine ⟨d, ?_, hshp, hlen, hbytes⟩
  simp only [MemVectorStore.prefer_add_vector, hav]
  rw [if_neg (by simp), if_neg (by omega)]
  simp only [hnone, hri, hav]

theorem set_vector_ok (s : MemVectorStore) (i : Nat) (v : List Nat)
    (hav : s._is_available = true) (hbs : 1 ≤ s._option.batch_size)
    (hi : i < s._current_idx)
    (hcap : s._current_idx ≤ s._data.length * s._option.batch_size) :
    s.set_vector i v = (Except.ok (),
      { s with _data := (s._data.set (i / s._option.batch_size)
          ((s._data.getD (i / s._option.batch_size) dfltBatch).set_vector
            (i % s._option.batch_size) v)) }) := by
  have hdiv : i / s._option.batch_size < s._data.length := by
    by_contra hc
    push_neg at hc
    have hm1 : s._data.length * s._option.batch_size
        ≤ i / s._option.batch_size * s._option.batch_size :=
      Nat.mul_le_mul_right _ hc
    have hm2 : i / s._option.batch_size * s._option.batch_size ≤ i :=
      Nat.div_mul_le_self _ _
    omega
  have hsome : s._data[i / s._option.batch_size]?
      = some (s._data.getD (i / s._option.batch_size) dfltBatch) :=
    getElem?_some_getD _ _ _ hdiv
  simp only [MemVectorStore.set_vector, hav]
  rw [if_neg (by simp), if_neg (by omega)]
  simp only [hsome]

theorem dataShape_set_vector (data : List VectorBatch) (bs cur bi si : Nat) (v : List Nat)
    (h : dataShape data bs cur) :
    dataShape (data.set bi ((data.getD bi dfltBatch).set_vector si v)) bs cur := by
  intro i hi
  rw [List.length_set] at hi
  by_cases hii : i = bi
  · subst hii
    rw [getD_set_self data _ _ dfltBatch hi]
    exact h i hi
  · rw [getD_set_ne data _ i _ dfltBatch (fun h2 => hii h2.symm)]
    exact h i hi

theorem StoreInv_mono (R R2 : List Nat) (s : MemVectorStore)
    (hsub : ∀ x ∈ R, x ∈ R2) (h : StoreInv R s) : StoreInv R2 s :=
  { h with staleMem := fun p hp hne => hsub p.1 (h.staleMem p hp hne) }

theorem inv_update_prefer (R : List Nat) (s : MemVectorStore) (label : Nat)
    (hinv : StoreInv R s) (hlab : label ≠ kUnknownLabel)
    (hnone : List.lookup label s._label_map = none)
    (hcur : s._current_idx < s._option.max_elements)
    (d : List VectorBatch)
    (hshp : dataShape d s._option.batch_size (s._current_idx + 1))
    (hlen : d.length = s._data.length) :
    StoreInv R
      { s with _label_map := mapInsert s._label_map label s._current_idx
               _lid_to_label := s._lid_to_label.set s._current_idx label
               _data := d
               _current_idx := s._current_idx + 1 } := by
  have hmapins := mapInsert_of_none s._label_map label s._current_idx hnone
  have hcurlen : s._current_idx < s._lid_to_label.length := by
    rw [hinv.lidLen]; exact hcur
  refine ⟨hinv.avail, hinv.bsPos, ?_, ?_, hinv.dsEq, hinv.dmSorted, ?_, ?_, ?_, ?_, ?_, hshp⟩
  all_goals dsimp only
  · simpa [List.length_set] using hinv.lidLen
  · omega
  · intro x
    constructor
    · intro hx
      obtain ⟨hx1, hx2⟩ := (hinv.dmIff x).mp hx
      refine ⟨by omega, ?_⟩
      rw [getD_set_ne s._lid_to_label _ x _ 0 (by omega)]
      exact hx2
    · rintro ⟨hx1, hx2⟩
      by_cases hxc : x = s._current_idx
      · subst hxc
        rw [getD_set_self s._lid_to_label _ _ 0 hcurlen] at hx2
        exact absurd hx2 hlab
      · rw [getD_set_ne s._lid_to_label _ x _ 0 (fun h => hxc h.symm)] at hx2
        exact (hinv.dmIff x).mpr ⟨by omega, hx2⟩
  · intro p hp
    rw [hmapins] at hp
    rcases List.mem_append.mp hp with hp | hp
    · have := hinv.mapLt p hp
      omega
    · simp only [List.mem_singleton] at hp
      subst hp
      omega
  · intro p hp
    rw [hmapins] at hp
    rcases List.mem_append.mp hp with hp | hp
    · exact hinv.mapKeysNe p hp
    · simp only [List.mem_singleton] at hp
      subst hp
      exact hlab
  · intro p hp hne
    rw [hmapins] at hp
    rcases List.mem_append.mp hp with hp | hp
    · have hplt := hinv.mapLt p hp
      rw [getD_set_ne s._lid_to_label _ p.2 _ 0 (by omega)] at hne
      exact hinv.staleMem p hp hne
    · simp only [List.mem_singleton] at hp
      subst hp
      rw [getD_set_self s._lid_to_label _ _ 0 hcurlen] at hne
      exact absurd rfl hne
  · rw [hlen]
    exact hinv.capGe

theorem inv_update_vacant (R : List Nat) (s : MemVectorStore) (label : Nat)
    (hinv : StoreInv R s) (hlab : label ≠ kUnknownLabel)
    (hnone : List.lookup label s._label_map = none)
    (h : Nat) (t : List Nat) (hdm : s._deleted_map = h :: t)
    (d : List VectorBatch)
    (hshp : dataShape d s._option.batch_size s._current_idx)
    (hlen : d.length = s._data.length) :
    StoreInv R
      { s with _deleted_map := t
               _lid_to_label := s._lid_to_label.set h label
               _deleted_size := s._deleted_size - 1
               _label_map := mapInsert s._label_map label h
               _data := d } := by
  have hmapins := mapInsert_of_none s._label_map label h hnone
  have hmemh : h ∈ s._deleted_map := by rw [hdm]; exact List.mem_cons_self h t
  obtain ⟨hhcur, hhrev⟩ := (hinv.dmIff h).mp hmemh
  have hhlen : h < s._lid_to_label.length := by
    have hc := hinv.curLe
    rw [hinv.lidLen]
    omega
  have hsorted := hinv.dmSorted
  rw [hdm] at hsorted
  have hlt := sorted_cons_lt h t hsorted
  refine ⟨hinv.avail, hinv.bsPos, ?_, hinv.curLe, ?_, sorted_tail h t hsorted, ?_, ?_, ?_, ?_, ?_,
    hshp⟩
  all_goals dsimp only
  · simpa [List.length_set] using hinv.lidLen
  · have := hinv.dsEq
    rw [hdm] at this
    simp only [List.length_cons] at this
    omega
  · intro x
    constructor
    · intro hx
      have hxd : x ∈ s._deleted_map := by rw [hdm]; exact List.mem_cons_of_mem h hx
      obtain ⟨hx1, hx2⟩ := (hinv.dmIff x).mp hxd
      have hxh : h < x := hlt x hx
      refine ⟨hx1, ?_⟩
      rw [getD_set_ne s._lid_to_label _ x _ 0 (by omega)]
      exact hx2
    · rintro ⟨hx1, hx2⟩
      by_cases hxh : x = h
      · subst hxh
        rw [getD_set_self s._lid_to_label _ _ 0 hhlen] at hx2
        exact absurd hx2 hlab
      · rw [getD_set_ne s._lid_to_label _ x _ 0 (fun h2 => hxh h2.symm)] at hx2
        have := (hinv.dmIff x).mpr ⟨hx1, hx2⟩
        rw [hdm] at this
        rcases List.mem_cons.mp this with h2 | h2
        · exact absurd h2 hxh
        · exact h2
  · intro p hp
    rw [hmapins] at hp
    rcases List.mem_append.mp hp with hp | hp
    · exact hinv.mapLt p hp
    · simp only [List.mem_singleton] at hp
      subst hp
      exact hhcur
  · intro p hp
    rw [hmapins] at hp
    rcases List.mem_append.mp hp with hp | hp
    · exact hinv.mapKeysNe p hp
    · simp only [List.mem_singleton] at hp
      subst hp
      exact hlab
  · intro p hp hne
    rw [hmapins] at hp
    rcases List.mem_append.mp hp with hp | hp
    · by_cases hph : p.2 = h
      · refine hinv.staleMem p hp ?_
        rw [hph, hhrev]
        exact fun h2 => (hinv.mapKeysNe p hp) h2.symm
      · rw [getD_set_ne s._lid_to_label _ p.2 _ 0 (fun h2 => hph h2.symm)] at hne
        exact hinv.staleMem p hp hne
    · simp only [List.mem_singleton] at hp
      subst hp
      rw [getD_set_self s._lid_to_label _ _ 0 hhlen] at hne
      exact absurd rfl hne
  · rw [hlen]
    exact hinv.capGe

theorem remove_inv (R : List Nat) (s : MemVectorStore) (label : Nat)
    (hinv : StoreInv R s) (hR : label ∉ R) :
    StoreInv (label :: R) (s.remove_vector label).2 := by
  have hav := hinv.avail
  cases hlook : List.lookup label s._label_map with
  | none =>
    have heq : s.remove_vector label = (Except.error StoreError.notFound, s) := by
      simp only [MemVectorStore.remove_vector, hav]
      rw [if_neg (by simp)]
      simp only [hlook]
    rw [heq]
    exact StoreInv_mono R (label :: R) s (fun x hx => List.mem_cons_of_mem _ hx) hinv
  | some lid =>
    have heq : s.remove_vector label = (Except.ok lid,
        { s with _lid_to_label := s._lid_to_label.set lid kUnknownLabel
                 _deleted_map := osetAdd s._deleted_map lid
                 _deleted_size := s._deleted_size + 1 }) := by
      simp only [MemVectorStore.remove_vector, hav]
      rw [if_neg (by simp)]
      simp only [hlook]
    rw [heq]
    have hmem := lookup_mem s._label_map label lid hlook
    have hlid := hinv.mapLt _ hmem
    have hlabne := hinv.mapKeysNe _ hmem
    have hrev : s._lid_to_label.getD lid 0 = label := by
      by_contra hc
      exact hR (hinv.staleMem (label, lid) hmem hc)
    have hnotdm : lid ∉ s._deleted_map := by
      intro hmemdm
      have h2 := ((hinv.dmIff lid).mp hmemdm).2
      rw [hrev] at h2
      exact hlabne h2
    have hlidlen : lid < s._lid_to_label.length := by
      have hc := hinv.curLe
      rw [hinv.lidLen]
      omega
    refine ⟨hinv.avail, hinv.bsPos, ?_, hinv.curLe, ?_, sorted_osetAdd _ _ hinv.dmSorted,
      ?_, ?_, ?_, ?_, ?_, hinv.shape⟩
    all_goals dsimp only
    · simpa [List.length_set] using hinv.lidLen
    · rw [length_osetAdd_of_not_mem _ _ hnotdm]
      have h2 := hinv.dsEq
      omega
    · intro x
      rw [mem_osetAdd]
      constructor
      · intro hx
        rcases hx with hx | hx
        · subst hx
          exact ⟨hlid, getD_set_self _ _ _ 0 hlidlen⟩
        · obtain ⟨hx1, hx2⟩ := (hinv.dmIff x).mp hx
          by_cases hxl : x = lid
          · subst hxl
            exact ⟨hx1, getD_set_self _ _ _ 0 hlidlen⟩
          · rw [getD_set_ne _ _ x _ 0 (fun h => hxl h.symm)]
            exact ⟨hx1, hx2⟩
      · rintro ⟨hx1, hx2⟩
        by_cases hxl : x = lid
        · exact Or.inl hxl
        · rw [getD_set_ne _ _ x _ 0 (fun h => hxl h.symm)] at hx2
          exact Or.inr ((hinv.dmIff x).mpr ⟨hx1, hx2⟩)
    · exact hinv.mapLt
    · exact hinv.mapKeysNe
    · intro p hp hne
      by_cases hpl : p.2 = lid
      · by_cases hp1 : p.1 = label
        · rw [hp1]
          exact List.mem_cons_self _ _
        · refine List.mem_cons_of_mem _ (hinv.staleMem p hp ?_)
          rw [hpl, hrev]
          exact fun h => hp1 h.symm
      · rw [getD_set_ne _ _ p.2 _ 0 (fun h => hpl h.symm)] at hne
        exact List.mem_cons_of_mem _ (hinv.staleMem p hp hne)
    · exact hinv.capGe

theorem add_prefer_fallback_inv (R : List Nat) (s : MemVectorStore) (label : Nat)
    (q : List Nat) (e : StoreError)
    (hinv : StoreInv R s) (hlab : label ≠ kUnknownLabel)
    (hgv : s.get_vacant label = (Except.error e, s)) :
    StoreInv R (s.add_vector label q).2 := by
  simp only [MemVectorStore.add_vector, hinv.avail]
  rw [if_neg (by simp)]
  simp only [hgv]
  by_cases hfull : s._option.max_elements ≤ s._current_idx
  · rw [prefer_full s label hinv.avail hfull]
    exact hinv
  · push_neg at hfull
    cases hlook : List.lookup label s._label_map with
    | some v =>
      rw [prefer_conflict s label v hinv.avail hfull hlook]
      exact hinv
    | none =>
      obtain ⟨d, hpref, hshp, hlen, hbytes⟩ :=
        prefer_success s label hinv.avail hinv.bsPos hinv.shape hinv.capGe hfull hlook
      simp only [hpref]
      have hsv := set_vector_ok
        { s with _label_map := mapInsert s._label_map label s._current_idx
                 _lid_to_label := s._lid_to_label.set s._current_idx label
                 _data := d
                 _current_idx := s._current_idx + 1 }
        s._current_idx q hinv.avail hinv.bsPos (Nat.lt_succ_self _)
        (by
          dsimp only
          rw [hlen]
          have hc := hinv.capGe
          omega)
      dsimp only at hsv
      simp only [hsv]
      exact inv_update_prefer R s label hinv hlab hlook hfull _
        (dataShape_set_vector d s._option.batch_size (s._current_idx + 1) _ _ q hshp)
        (by rw [List.length_set, hlen])

theorem add_inv (R : List Nat) (s : MemVectorStore) (label : Nat) (q : List Nat)
    (hinv : StoreInv R s) (hlab : label ≠ kUnknownLabel) :
    StoreInv R (s.add_vector label q).2 := by
  have hav := hinv.avail
  by_cases hen : s._option.enable_replace_vacant = false
  · exact add_prefer_fallback_inv R s label q _ hinv hlab
      (get_vacant_disabled s label hav hen)
  · have hen2 : s._option.enable_replace_vacant = true := by
      cases h : s._option.enable_replace_vacant
      · exact absurd h hen
      · rfl
    cases hdm : s._deleted_map with
    | nil =>
      exact add_prefer_fallback_inv R s label q _ hinv hlab
        (get_vacant_empty s label hav hen2 hdm)
    | cons h t =>
      cases hlook : List.lookup label s._label_map with
      | some v =>
        exact add_prefer_fallback_inv R s label q _ hinv hlab
          (get_vacant_conflict s label v hav hen2 (by rw [hdm]; simp) hlook)
      | none =>
        have hgv := get_vacant_success s label hav hen2 (by rw [hdm]; simp) hlook
        have hminh : osetMin s._deleted_map = h := by
          rw [hdm]
          rfl
        have hmemh : h ∈ s._deleted_map := by
          rw [hdm]
          exact List.mem_cons_self h t
        have hhcur : h < s._current_idx := ((hinv.dmIff h).mp hmemh).1
        simp only [MemVectorStore.add_vector, hav]
        rw [if_neg (by simp)]
        simp only [hgv, hminh]
        have hsv := set_vector_ok
          { s with _deleted_map := osetRemove s._deleted_map h
                   _lid_to_label := s._lid_to_label.set h label
                   _deleted_size := s._deleted_size - 1
                   _label_map := mapInsert s._label_map label h }
          h q hav hinv.bsPos hhcur
          (by
            dsimp only
            have hc1 := hinv.curLe
            have hc2 := hinv.capGe
            omega)
        dsimp only at hsv
        simp only [hsv]
        have hrem : osetRemove s._deleted_map h = t := by
          rw [hdm]
          exact erase_cons_self h t
        rw [hrem]
        exact inv_update_vacant R s label hinv hlab hlook h t hdm _
          (dataShape_set_vector s._data s._option.batch_size s._current_idx _ _ q hinv.shape)
          (List.length_set _ _ _)

theorem filter_length_split {α : Type} (p : α → Bool) :
    ∀ l : List α, (l.filter p).length + (l.filter (fun x => !(p x))).length = l.length := by
  intro l
  induction l with
  | nil => rfl
  | cons a t ih =>
    by_cases h : p a
    · simp only [List.filter, h, Bool.not_true, List.length_cons]
      omega
    · have h2 : p a = false := by
        cases h3 : p a
        · rfl
        · exact absurd h3 h
      simp only [List.filter, h2, Bool.not_false, List.length_cons]
      omega

theorem retiredSlots_eq_dm (R : List Nat) (s : MemVectorStore) (hinv : StoreInv R s) :
    retiredSlots s = s._deleted_map.length := by
  have hperm : List.Perm ((List.range s._current_idx).filter
      (fun l => s._lid_to_label.getD l 0 == kUnknownLabel)) s._deleted_map := by
    rw [List.perm_ext_iff_of_nodup (List.Nodup.filter _ (List.nodup_range _))
      (sorted_nodup _ hinv.dmSorted)]
    intro a
    rw [List.mem_filter, List.mem_range, hinv.dmIff a]
    constructor
    · rintro ⟨h1, h2⟩
      exact ⟨h1, by simpa using h2⟩
    · rintro ⟨h1, h2⟩
      exact ⟨h1, by simpa using h2⟩
  exact hperm.length_eq

theorem liveSlots_eq (R : List Nat) (s : MemVectorStore) (hinv : StoreInv R s) :
    liveSlots s = s._current_idx - s._deleted_map.length := by
  have hsplit := filter_length_split
    (fun l => s._lid_to_label.getD l 0 == kUnknownLabel) (List.range s._current_idx)
  have hr := retiredSlots_eq_dm R s hinv
  unfold retiredSlots at hr
  unfold liveSlots
  rw [List.length_range] at hsplit
  omega

theorem getD_replicate {α : Type} (k i : Nat) (b d : α) (h : i < k) :
    (List.replicate k b).getD i d = b := by
  induction k generalizing i with
  | zero => omega
  | succ k2 ih =>
    cases i with
    | zero => rfl
    | succ j => simpa [List.replicate, List.getD] using ih j (by omega)

theorem reserveAux_data : ∀ (fuel n : Nat) (s : MemVectorStore),
    ∃ k, reserveAux fuel n s = { s with _data := (s._data
      ++ List.replicate k (VectorBatch.init s._option.vector_byte_size s._option.batch_size)) } := by
  intro fuel
  induction fuel with
  | zero =>
    intro n s
    exact ⟨0, by simp [reserveAux]⟩
  | succ f ih =>
    intro n s
    simp only [reserveAux]
    by_cases h : s._data.length * s._option.batch_size < n
    · rw [if_pos h]
      obtain ⟨k, hk⟩ := ih n s.expend
      refine ⟨k + 1, ?_⟩
      rw [hk]
      simp only [MemVectorStore.expend]
      rw [List.append_assoc]
      rfl
    · rw [if_neg h]
      exact ⟨0, by simp⟩

theorem reserveAux_capacity : ∀ (fuel n : Nat) (s : MemVectorStore),
    1 ≤ s._option.batch_size →
    n ≤ (s._data.length + fuel) * s._option.batch_size →
    n ≤ (reserveAux fuel n s)._data.length * s._option.batch_size := by
  intro fuel
  induction fuel with
  | zero =>
    intro n s _ h
    simpa [reserveAux] using h
  | succ f ih =>
    intro n s hbs h
    simp only [reserveAux]
    by_cases hg : s._data.length * s._option.batch_size < n
    · rw [if_pos hg]
      have hlen2 : s.expend._data.length = s._data.length + 1 := by
        simp [MemVectorStore.expend]
      have h2 := ih n s.expend hbs (by
        rw [hlen2, show s.expend._option.batch_size = s._option.batch_size from rfl]
        have he : (s._data.length + 1 + f) * s._option.batch_size
            = (s._data.length + (f + 1)) * s._option.batch_size := by ring
        omega)
      exact h2
    · rw [if_neg hg]
      omega

theorem initializeStore_inv (s0 : MemVectorStore) (op : VectorStoreOption)
    (hbs : 1 ≤ op.batch_size)
    (hlid : s0._lid_to_label = []) (hdata : s0._data = [])
    (hmap : s0._label_map = []) (hdm : s0._deleted_map = [])
    (hds : s0._deleted_size = 0) (hcur : s0._current_idx = 0) :
    StoreInv [] (s0.initializeStore op).2 := by
  simp only [MemVectorStore.initializeStore, MemVectorStore.reserve_impl, Nat.min_self]
  obtain ⟨k, hk⟩ := reserveAux_data op.max_elements op.max_elements
    { s0 with _option := op
              _lid_to_label := resizeFill s0._lid_to_label op.max_elements kUnknownLabel }
  dsimp only at hk
  rw [hk]
  have hcap := reserveAux_capacity op.max_elements op.max_elements
    { s0 with _option := op
              _lid_to_label := resizeFill s0._lid_to_label op.max_elements kUnknownLabel }
    hbs
    (by
      dsimp only
      rw [hdata]
      simp only [List.length_nil, Nat.zero_add]
      have h2 : op.max_elements * 1 ≤ op.max_elements * op.batch_size :=
        Nat.mul_le_mul_left _ hbs
      omega)
  rw [hk] at hcap
  dsimp only at hcap
  rw [hdata] at hcap
  simp only [List.nil_append] at hcap
  have hfill : resizeFill s0._lid_to_label op.max_elements kUnknownLabel
      = List.replicate op.max_elements kUnknownLabel := by
    rw [hlid]
    simp [resizeFill]
  refine ⟨rfl, hbs, ?_, ?_, ?_, ?_, ?_, ?_, ?_, ?_, ?_, ?_⟩
  all_goals dsimp only
  · rw [hfill]
    exact List.length_replicate _ _
  · omega
  · rw [hds, hdm]
    rfl
  · rw [hdm]
    rfl
  · intro x
    rw [hdm, hcur]
    simp
  · intro p hp
    rw [hmap] at hp
    simp at hp
  · intro p hp
    rw [hmap] at hp
    simp at hp
  · intro p hp
    rw [hmap] at hp
    simp at hp
  · rw [hdata]
    simpa using hcap
  · intro i hi
    rw [hdata] at hi
    simp only [List.nil_append, List.length_replicate] at hi
    rw [hdata]
    simp only [List.nil_append]
    rw [getD_replicate k i _ dfltBatch hi]
    refine ⟨rfl, ?_⟩
    rw [hcur]
    simp [VectorBatch.init]

theorem runOps_inv : ∀ (t : List StoreOp) (R : List Nat) (s : MemVectorStore),
    StoreInv R s → (removeLabels t).Nodup →
    (∀ l ∈ removeLabels t, l ∉ R) →
    (∀ l ∈ addLabels t, l ≠ kUnknownLabel) →
    ∃ R2, StoreInv R2 (runOps s t) := by
  intro t
  induction t with
  | nil =>
    intro R s hinv _ _ _
    exact ⟨R, hinv⟩
  | cons op t2 ih =>
    intro R s hinv hnd hdisj hadd
    cases op with
    | addV l b =>
      refine ih R _ (add_inv R s l b hinv (hadd l ?_)) ?_ ?_ ?_
      · simp [addLabels]
      · simpa [removeLabels] using hnd
      · intro l2 hl2
        exact hdisj l2 (by simpa [removeLabels] using hl2)
      · intro l2 hl2
        exact hadd l2 (by simp [addLabels, hl2])
    | removeV l =>
      have hl : l ∉ R := hdisj l (by simp [removeLabels])
      have hnd0 : (l :: removeLabels t2).Nodup := by simpa [removeLabels] using hnd
      have hnd2 : (removeLabels t2).Nodup := (List.nodup_cons.mp hnd0).2
      have hlnotin : l ∉ removeLabels t2 := (List.nodup_cons.mp hnd0).1
      refine ih (l :: R) _ (remove_inv R s l hinv hl) hnd2 ?_ ?_
      · intro l2 hl2 hmem
        rcases List.mem_cons.mp hmem with h | h
        · subst h
          exact hlnotin hl2
        · exact hdisj l2 (by simp [removeLabels, hl2]) h
      · intro l2 hl2
        exact hadd l2 (by simp [addLabels, hl2])

theorem addLabels_append : ∀ (t1 t2 : List StoreOp),
    addLabels (t1 ++ t2) = addLabels t1 ++ addLabels t2 := by
  intro t1 t2
  induction t1 with
  | nil => rfl
  | cons op t ih =>
    cases op with
    | addV l b => simp [addLabels, ih]
    | removeV l => simp [addLabels, ih]

theorem removeLabels_append : ∀ (t1 t2 : List StoreOp),
    removeLabels (t1 ++ t2) = removeLabels t1 ++ removeLabels t2 := by
  intro t1 t2
  induction t1 with
  | nil => rfl
  | cons op t ih =>
    cases op with
    | addV l b => simp [removeLabels, ih]
    | removeV l => simp [removeLabels, ih]

/-- Claim C3: in every state reachable by a sequence of `add_vector` /
`remove_vector` calls with pairwise-distinct labels (each label added once,
removed at most once, sentinel not used as a label), `size()` equals the
number of live labels, `deleted_size()` equals the number of retired
not-yet-reused locations, and `size()` equals the high-water mark minus the
tombstoned count.  The quantification over a prefix `t1` of the trace `t`
expresses "at every point of the interleaving". -/
theorem claim_C3 (op : VectorStoreOption) (t t1 t2 : List StoreOp) (s : MemVectorStore)
    (hbs : 1 ≤ op.batch_size) (hv : validOps t) (hsplit : t = t1 ++ t2)
    (hs : s = runOps (emptyStore.initializeStore op).2 t1) :
    s.size = Except.ok (liveSlots s) ∧
    s.deleted_size = Except.ok (retiredSlots s) ∧
    s.size = Except.ok (s._current_idx - s._deleted_map.length) := by
  obtain ⟨hadds, hrems, hsent⟩ := hv
  rw [hsplit, addLabels_append] at hsent
  rw [hsplit, removeLabels_append] at hrems
  obtain ⟨R2, hinv⟩ := runOps_inv t1 [] (emptyStore.initializeStore op).2
    (initializeStore_inv emptyStore op hbs rfl rfl rfl rfl rfl rfl)
    (hrems.of_append_left)
    (fun l _ h => List.not_mem_nil l h)
    (fun l hl => hsent l (List.mem_append_left _ hl))
  rw [← hs] at hinv
  have hsize : s.size = Except.ok (s._current_idx - s._deleted_size) := by
    simp only [MemVectorStore.size, hinv.avail]
    rw [if_neg (by simp)]
  have hds := hinv.dsEq
  have hlive := liveSlots_eq R2 s hinv
  have hret := retiredSlots_eq_dm R2 s hinv
  refine ⟨?_, ?_, ?_⟩
  · rw [hsize, hlive, hds]
  · simp only [MemVectorStore.deleted_size, hret, hds]
  · rw [hsize, hds]

/-- Witness for C3 at a concrete option set and trace. -/
theorem claim_C3_witness :
    (runOps (emptyStore.initializeStore (VectorStoreOption.mk 2 4 1 true)).2
        [StoreOp.addV 10 [1], StoreOp.addV 20 [2], StoreOp.removeV 10]).size
      = Except.ok (liveSlots (runOps (emptyStore.initializeStore
          (VectorStoreOption.mk 2 4 1 true)).2
        [StoreOp.addV 10 [1], StoreOp.addV 20 [2], StoreOp.removeV 10])) ∧
    (runOps (emptyStore.initializeStore (VectorStoreOption.mk 2 4 1 true)).2
        [StoreOp.addV 10 [1], StoreOp.addV 20 [2], StoreOp.removeV 10]).deleted_size
      = Except.ok (retiredSlots (runOps (emptyStore.initializeStore
          (VectorStoreOption.mk 2 4 1 true)).2
        [StoreOp.addV 10 [1], StoreOp.addV 20 [2], StoreOp.removeV 10])) ∧
    (runOps (emptyStore.initializeStore (VectorStoreOption.mk 2 4 1 true)).2
        [StoreOp.addV 10 [1], StoreOp.addV 20 [2], StoreOp.removeV 10]).size
      = Except.ok ((runOps (emptyStore.initializeStore (VectorStoreOption.mk 2 4 1 true)).2
        [StoreOp.addV 10 [1], StoreOp.addV 20 [2], StoreOp.removeV 10])._current_idx
        - (runOps (emptyStore.initializeStore (VectorStoreOption.mk 2 4 1 true)).2
        [StoreOp.addV 10 [1], StoreOp.addV 20 [2], StoreOp.removeV 10])._deleted_map.length) :=
  claim_C3 (VectorStoreOption.mk 2 4 1 true)
    ([StoreOp.addV 10 [1], StoreOp.addV 20 [2], StoreOp.removeV 10] ++ [StoreOp.addV 30 [3]])
    [StoreOp.addV 10 [1], StoreOp.addV 20 [2], StoreOp.removeV 10]
    [StoreOp.addV 30 [3]] _ (by decide) ⟨by decide, by decide, by decide⟩ rfl rfl

/-! ### Claims -/

theorem bool_eq_true_of_ne_false (b : Bool) (h : ¬ b = false) : b = true := by
  cases b
  · exact absurd rfl h
  · rfl

/-- Claim C1, amended: after a successful `remove_vector(label)` returning
location `lid`, `is_deleted(lid)` is true and `get_label(lid)` reports the
unknown-label sentinel, but `exists_label(label)` still returns `true`: the
source's `remove_vector` never erases the `_label_map` entry. -/
theorem claim_C1_amended (s : MemVectorStore) (label : Nat)
    (hav : s._is_available = true)
    (hmaplt : ∀ p ∈ s._label_map, p.2 < s._current_idx)
    (hlen : s._current_idx ≤ s._lid_to_label.length) :
    ∀ lid s2, s.remove_vector label = (Except.ok lid, s2) →
      s2.is_deleted lid = Except.ok true ∧
      s2.get_label lid = Except.ok kUnknownLabel ∧
      s2.exists_label label = Except.ok true := by
  intro lid s2 hrem
  cases hlook : List.lookup label s._label_map with
  | none =>
    rw [show s.remove_vector label = (Except.error StoreError.notFound, s) from by
      simp only [MemVectorStore.remove_vector, hav]
      rw [if_neg (by simp)]
      simp only [hlook]] at hrem
    exact absurd (congrArg Prod.fst hrem) (by simp)
  | some lid0 =>
    have heq : s.remove_vector label = (Except.ok lid0,
        { s with _lid_to_label := s._lid_to_label.set lid0 kUnknownLabel
                 _deleted_map := osetAdd s._deleted_map lid0
                 _deleted_size := s._deleted_size + 1 }) := by
      simp only [MemVectorStore.remove_vector, hav]
      rw [if_neg (by simp)]
      simp only [hlook]
    rw [heq] at hrem
    have hlid : lid0 = lid := by
      have h2 := congrArg Prod.fst hrem
      simpa using h2
    subst hlid
    have hs2 : s2 = { s with _lid_to_label := s._lid_to_label.set lid0 kUnknownLabel
                             _deleted_map := osetAdd s._deleted_map lid0
                             _deleted_size := s._deleted_size + 1 } := by
      have h2 := congrArg Prod.snd hrem
      simpa using h2.symm
    subst hs2
    have hmem := lookup_mem s._label_map label lid0 hlook
    have hcur := hmaplt _ hmem
    have hlen0 : lid0 < s._lid_to_label.length := by omega
    refine ⟨?_, ?_, ?_⟩
    · simp only [MemVectorStore.is_deleted]
      rw [if_neg (by simp [hav]), if_neg (by omega)]
      rw [getD_set_self _ _ _ 0 hlen0]
      simp
    · simp only [MemVectorStore.get_label]
      rw [if_neg (by simp [hav]), if_neg (by omega)]
      rw [getD_set_self _ _ _ 0 hlen0]
    · simp only [MemVectorStore.exists_label]
      rw [if_neg (by simp [hav])]
      rw [hlook]
      rfl

/-- Witness for the amended C1 on a concrete store. -/
theorem claim_C1_witness :
    (((emptyStore.initializeStore (VectorStoreOption.mk 1 2 1 true)).2.add_vector 7 [5]).2.remove_vector
        7).2.is_deleted 0 = Except.ok true ∧
    (((emptyStore.initializeStore (VectorStoreOption.mk 1 2 1 true)).2.add_vector 7 [5]).2.remove_vector
        7).2.get_label 0 = Except.ok kUnknownLabel ∧
    (((emptyStore.initializeStore (VectorStoreOption.mk 1 2 1 true)).2.add_vector 7 [5]).2.remove_vector
        7).2.exists_label 7 = Except.ok true :=
  claim_C1_amended ((emptyStore.initializeStore (VectorStoreOption.mk 1 2 1 true)).2.add_vector 7 [5]).2
    7 (by decide) (by decide) (by decide) 0 _ rfl

/-- Counterexample to C1 as stated: after a successful removal the label
still exists (`exists_label` returns `true`, not `false`). -/
theorem claim_C1_counterexample :
    ((((emptyStore.initializeStore (VectorStoreOption.mk 2 4 1 true)).2.add_vector 10 [7]).2.remove_vector
        10).1 = Except.ok 0) ∧
    ((((emptyStore.initializeStore (VectorStoreOption.mk 2 4 1 true)).2.add_vector 10 [7]).2.remove_vector
        10).2.exists_label 10 = Except.ok true) ∧
    ((((emptyStore.initializeStore (VectorStoreOption.mk 2 4 1 true)).2.add_vector 10 [7]).2.remove_vector
        10).2.exists_label 10 ≠ Except.ok false) := by
  refine ⟨by decide, by decide, by decide⟩

/-- Claim C4, amended: with `label` live, `add_vector` leaves the store
unchanged, and returns `ALREADY_EXISTS` when the high-water mark is below
`max_elements` but `RESOURCE_EXHAUSTED` when it is not (the capacity check
in `prefer_add_vector` precedes the label check). -/
theorem claim_C4_amended (s : MemVectorStore) (label v : Nat) (q : List Nat)
    (hav : s._is_available = true)
    (hsome : List.lookup label s._label_map = some v) :
    s.add_vector label q =
      ((if s._option.max_elements ≤ s._current_idx then Except.error StoreError.resourceExhausted
        else Except.error StoreError.alreadyExists), s) := by
  have hgv : ∃ e, s.get_vacant label = (Except.error e, s) := by
    by_cases hen : s._option.enable_replace_vacant = false
    · exact ⟨_, get_vacant_disabled s label hav hen⟩
    · have hen2 := bool_eq_true_of_ne_false _ hen
      cases hdm : s._deleted_map with
      | nil => exact ⟨_, get_vacant_empty s label hav hen2 hdm⟩
      | cons h t =>
        exact ⟨_, get_vacant_conflict s label v hav hen2 (by rw [hdm]; simp) hsome⟩
  obtain ⟨e, hgv⟩ := hgv
  simp only [MemVectorStore.add_vector, hav]
  rw [if_neg (by simp)]
  simp only [hgv]
  by_cases hfull : s._option.max_elements ≤ s._current_idx
  · rw [prefer_full s label hav hfull, if_pos hfull]
  · push_neg at hfull
    rw [prefer_conflict s label v hav hfull hsome, if_neg (by omega)]

/-- Witness for the amended C4 on a non-full store. -/
theorem claim_C4_witness :
    (((emptyStore.initializeStore (VectorStoreOption.mk 1 2 1 true)).2.add_vector 5 [9]).2.add_vector
        5 [9])
      = (Except.error StoreError.alreadyExists,
        ((emptyStore.initializeStore (VectorStoreOption.mk 1 2 1 true)).2.add_vector 5 [9]).2) := by
  have h := claim_C4_amended
    ((emptyStore.initializeStore (VectorStoreOption.mk 1 2 1 true)).2.add_vector 5 [9]).2
    5 0 [9] (by decide) (by decide)
  rw [h]
  decide

/-- Counterexample to C4 as stated: a live label re-added to a full store
yields `RESOURCE_EXHAUSTED`, not `ALREADY_EXISTS`. -/
theorem claim_C4_counterexample :
    ((((emptyStore.initializeStore (VectorStoreOption.mk 1 1 1 true)).2.add_vector 5 [9]).2.exists_label
        5) = Except.ok true) ∧
    ((((emptyStore.initializeStore (VectorStoreOption.mk 1 1 1 true)).2.add_vector 5 [9]).2.add_vector
        5 [9]).1 = Except.error StoreError.resourceExhausted) ∧
    ((((emptyStore.initializeStore (VectorStoreOption.mk 1 1 1 true)).2.add_vector 5 [9]).2.add_vector
        5 [9]).1 ≠ Except.error StoreError.alreadyExists) := by
  refine ⟨by decide, by decide, by decide⟩

/-- Claim C5, evaluated on the code: `remove_vector` and `get_vacant` take
the metadata lock first, but `prefer_add_vector` takes the label-map lock
first — the opposite order. -/
theorem claim_C5_locks :
    remove_vector_locks = [LockId.metaLock, LockId.labelMapLock] ∧
    get_vacant_locks = [LockId.metaLock, LockId.labelMapLock] ∧
    prefer_add_vector_locks = [LockId.labelMapLock, LockId.metaLock] ∧
    prefer_add_vector_locks ≠ [LockId.metaLock, LockId.labelMapLock] :=
  ⟨rfl, rfl, rfl, by decide⟩

/-- Claim C7: the `max_elements = 1` scenario, and in general a full store
with no reusable tombstone rejects `add_vector` with `RESOURCE_EXHAUSTED`
and is left unchanged. -/
theorem claim_C7 :
    ((emptyStore.initializeStore (VectorStoreOption.mk 1 1 1 true)).2.add_vector 1 [9]).1
      = Except.ok 0 ∧
    (((emptyStore.initializeStore (VectorStoreOption.mk 1 1 1 true)).2.add_vector 1 [9]).2.add_vector
        2 [8]).1 = Except.error StoreError.resourceExhausted ∧
    (((emptyStore.initializeStore (VectorStoreOption.mk 1 1 1 true)).2.add_vector 1 [9]).2.add_vector
        2 [8]).2.current_index = Except.ok 1 ∧
    ∀ (s : MemVectorStore) (label : Nat) (q : List Nat),
      s._is_available = true →
      s._option.max_elements ≤ s._current_idx →
      (s._option.enable_replace_vacant = false ∨ s._deleted_map = [] ∨
        (List.lookup label s._label_map).isSome = true) →
      s.add_vector label q = (Except.error StoreError.resourceExhausted, s) := by
  refine ⟨by decide, by decide, by decide, ?_⟩
  intro s label q hav hfull hno
  have hgv : ∃ e, s.get_vacant label = (Except.error e, s) := by
    by_cases hen : s._option.enable_replace_vacant = false
    · exact ⟨_, get_vacant_disabled s label hav hen⟩
    · have hen2 := bool_eq_true_of_ne_false _ hen
      rcases hno with hno | hno | hno
      · exact absurd hno (by rw [hen2]; simp)
      · exact ⟨_, get_vacant_empty s label hav hen2 hno⟩
      · obtain ⟨v, hv⟩ := Option.isSome_iff_exists.mp hno
        cases hdm : s._deleted_map with
        | nil => exact ⟨_, get_vacant_empty s label hav hen2 hdm⟩
        | cons h t =>
          exact ⟨_, get_vacant_conflict s label v hav hen2 (by rw [hdm]; simp) hv⟩
  obtain ⟨e, hgv⟩ := hgv
  simp only [MemVectorStore.add_vector, hav]
  rw [if_neg (by simp)]
  simp only [hgv]
  rw [prefer_full s label hav hfull]

/-- Witness for the general part of C7 at a concrete full store. -/
theorem claim_C7_witness :
    (((emptyStore.initializeStore (VectorStoreOption.mk 1 1 1 true)).2.add_vector 1 [9]).2.add_vector
        2 [8])
      = (Except.error StoreError.resourceExhausted,
        ((emptyStore.initializeStore (VectorStoreOption.mk 1 1 1 true)).2.add_vector 1 [9]).2) :=
  claim_C7.2.2.2 ((emptyStore.initializeStore (VectorStoreOption.mk 1 1 1 true)).2.add_vector 1 [9]).2
    2 [8] (by decide) (by decide) (by decide)

/-- Claim C8, amended: every embedded operation except `initialize`,
`deleted_size` and `capacity` aborts (`TLOG_CHECK` failure) when called
before `initialize`; `deleted_size` and `capacity` perform no such check and
return values. -/
theorem claim_C8_amended (s : MemVectorStore) (label loc i n : Nat) (q : List Nat)
    (hav : s._is_available = false) :
    (s.add_vector label q).1 = Except.error StoreError.fatal ∧
    (s.prefer_add_vector label).1 = Except.error StoreError.fatal ∧
    (s.get_vacant label).1 = Except.error StoreError.fatal ∧
    (s.remove_vector label).1 = Except.error StoreError.fatal ∧
    s.size = Except.error StoreError.fatal ∧
    s.current_index = Except.error StoreError.fatal ∧
    s.available = Except.error StoreError.fatal ∧
    s.exists_label label = Except.error StoreError.fatal ∧
    s.is_deleted loc = Except.error StoreError.fatal ∧
    s.get_label loc = Except.error StoreError.fatal ∧
    s.get_vector i = Except.error StoreError.fatal ∧
    (s.set_vector i q).1 = Except.error StoreError.fatal ∧
    (s.resize n).1 = Except.error StoreError.fatal ∧
    (s.reserve n).1 = Except.error StoreError.fatal ∧
    s.shrink.1 = Except.error StoreError.fatal ∧
    s.enable_vacant.1 = Except.error StoreError.fatal ∧
    s.disable_vacant.1 = Except.error StoreError.fatal ∧
    s.deleted_size = Except.ok s._deleted_size ∧
    s.capacity = Except.ok s.capacity_impl := by
  refine ⟨?_, ?_, ?_, ?_, ?_, ?_, ?_, ?_, ?_, ?_, ?_, ?_, ?_, ?_, ?_, ?_, ?_, rfl, rfl⟩
  · simp [MemVectorStore.add_vector, hav]
  · simp [MemVectorStore.prefer_add_vector, hav]
  · simp [MemVectorStore.get_vacant, hav]
  · simp [MemVectorStore.remove_vector, hav]
  · simp [MemVectorStore.size, hav]
  · simp [MemVectorStore.current_index, hav]
  · simp [MemVectorStore.available, hav]
  · simp [MemVectorStore.exists_label, hav]
  · simp [MemVectorStore.is_deleted, hav]
  · simp [MemVectorStore.get_label, hav]
  · simp [MemVectorStore.get_vector, hav]
  · simp [MemVectorStore.set_vector, hav]
  · simp [MemVectorStore.resize, hav]
  · simp [MemVectorStore.reserve, hav]
  · simp [MemVectorStore.shrink, hav]
  · simp [MemVectorStore.enable_vacant, hav]
  · simp [MemVectorStore.disable_vacant, hav]

/-- Witness for the amended C8 on the default-constructed store. -/
theorem claim_C8_witness :
    (emptyStore.add_vector 1 [0]).1 = Except.error StoreError.fatal ∧
    (emptyStore.prefer_add_vector 1).1 = Except.error StoreError.fatal ∧
    (emptyStore.get_vacant 1).1 = Except.error StoreError.fatal ∧
    (emptyStore.remove_vector 1).1 = Except.error StoreError.fatal ∧
    emptyStore.size = Except.error StoreError.fatal ∧
    emptyStore.current_index = Except.error StoreError.fatal ∧
    emptyStore.available = Except.error StoreError.fatal ∧
    emptyStore.exists_label 1 = Except.error StoreError.fatal ∧
    emptyStore.is_deleted 0 = Except.error StoreError.fatal ∧
    emptyStore.get_label 0 = Except.error StoreError.fatal ∧
    emptyStore.get_vector 0 = Except.error StoreError.fatal ∧
    (emptyStore.set_vector 0 [0]).1 = Except.error StoreError.fatal ∧
    (emptyStore.resize 3).1 = Except.error StoreError.fatal ∧
    (emptyStore.reserve 3).1 = Except.error StoreError.fatal ∧
    emptyStore.shrink.1 = Except.error StoreError.fatal ∧
    emptyStore.enable_vacant.1 = Except.error StoreError.fatal ∧
    emptyStore.disable_vacant.1 = Except.error StoreError.fatal ∧
    emptyStore.deleted_size = Except.ok emptyStore._deleted_size ∧
    emptyStore.capacity = Except.ok emptyStore.capacity_impl :=
  claim_C8_amended emptyStore 1 0 0 3 [0] rfl

/-- Counterexample to C8 as stated: `deleted_size()` and `capacity()` return
plain values (0) on the uninitialized store instead of aborting. -/
theorem claim_C8_counterexample :
    emptyStore._is_available = false ∧
    emptyStore.deleted_size = Except.ok 0 ∧
    emptyStore.capacity = Except.ok 0 ∧
    emptyStore.deleted_size ≠ Except.error StoreError.fatal ∧
    emptyStore.capacity ≠ Except.error StoreError.fatal := by
  refine ⟨rfl, rfl, rfl, by decide, by decide⟩

/-- Claim C9, amended: after a successful `remove_vector(label)` the label
map still contains the entry, so `exists_label(label)` is still `true`; an
immediate `add_vector(label, …)` returns `ALREADY_EXISTS` provided the
high-water mark is below `max_elements` (on a full store it returns
`RESOURCE_EXHAUSTED` instead, see C4/C7). -/
theorem claim_C9_amended (s : MemVectorStore) (label : Nat) (q : List Nat)
    (hav : s._is_available = true) :
    ∀ lid s2, s.remove_vector label = (Except.ok lid, s2) →
      s2._label_map = s._label_map ∧
      s2.exists_label label = Except.ok true ∧
      (s._current_idx < s._option.max_elements →
        s2.add_vector label q = (Except.error StoreError.alreadyExists, s2)) := by
  intro lid s2 hrem
  cases hlook : List.lookup label s._label_map with
  | none =>
    rw [show s.remove_vector label = (Except.error StoreError.notFound, s) from by
      simp only [MemVectorStore.remove_vector, hav]
      rw [if_neg (by simp)]
      simp only [hlook]] at hrem
    exact absurd (congrArg Prod.fst hrem) (by simp)
  | some lid0 =>
    have heq : s.remove_vector label = (Except.ok lid0,
        { s with _lid_to_label := s._lid_to_label.set lid0 kUnknownLabel
                 _deleted_map := osetAdd s._deleted_map lid0
                 _deleted_size := s._deleted_size + 1 }) := by
      simp only [MemVectorStore.remove_vector, hav]
      rw [if_neg (by simp)]
      simp only [hlook]
    rw [heq] at hrem
    have hs2 : s2 = { s with _lid_to_label := s._lid_to_label.set lid0 kUnknownLabel
                             _deleted_map := osetAdd s._deleted_map lid0
                             _deleted_size := s._deleted_size + 1 } := by
      have h2 := congrArg Prod.snd hrem
      simpa using h2.symm
    subst hs2
    refine ⟨rfl, ?_, ?_⟩
    · simp only [MemVectorStore.exists_label]
      rw [if_neg (by simp [hav])]
      rw [hlook]
      rfl
    · intro hcur
      have hgv : ∃ e, MemVectorStore.get_vacant
          { s with _lid_to_label := s._lid_to_label.set lid0 kUnknownLabel
                   _deleted_map := osetAdd s._deleted_map lid0
                   _deleted_size := s._deleted_size + 1 } label
          = (Except.error e,
            { s with _lid_to_label := s._lid_to_label.set lid0 kUnknownLabel
                     _deleted_map := osetAdd s._deleted_map lid0
                     _deleted_size := s._deleted_size + 1 }) := by
        by_cases hen : s._option.enable_replace_vacant = false
        · exact ⟨_, get_vacant_disabled _ label hav hen⟩
        · have hen2 := bool_eq_true_of_ne_false _ hen
          exact ⟨_, get_vacant_conflict _ label lid0 hav hen2
            (by dsimp only; exact osetAdd_ne_nil _ _) hlook⟩
      obtain ⟨e, hgv⟩ := hgv
      simp only [MemVectorStore.add_vector]
      rw [if_neg (by simp [hav])]
      simp only [hgv]
      rw [prefer_conflict
        { s with _lid_to_label := s._lid_to_label.set lid0 kUnknownLabel
                 _deleted_map := osetAdd s._deleted_map lid0
                 _deleted_size := s._deleted_size + 1 } label lid0 hav hcur hlook]

/-- Witness for the amended C9 on a concrete non-full store. -/
theorem claim_C9_witness :
    ((((emptyStore.initializeStore (VectorStoreOption.mk 1 2 1 true)).2.add_vector 7 [5]).2.remove_vector
        7).2.exists_label 7 = Except.ok true) ∧
    ((((emptyStore.initializeStore (VectorStoreOption.mk 1 2 1 true)).2.add_vector 7 [5]).2.remove_vector
        7).2.add_vector 7 [5]
      = (Except.error StoreError.alreadyExists,
        (((emptyStore.initializeStore (VectorStoreOption.mk 1 2 1 true)).2.add_vector 7 [5]).2.remove_vector
          7).2)) := by
  have h := claim_C9_amended
    ((emptyStore.initializeStore (VectorStoreOption.mk 1 2 1 true)).2.add_vector 7 [5]).2
    7 [5] (by decide) 0
    (((emptyStore.initializeStore (VectorStoreOption.mk 1 2 1 true)).2.add_vector 7 [5]).2.remove_vector
      7).2 rfl
  exact ⟨h.2.1, h.2.2 (by decide)⟩

/-- Counterexample to C9 as stated: on a full store, re-adding a removed
label yields `RESOURCE_EXHAUSTED`, not `ALREADY_EXISTS` (while the label map
does still contain the label). -/
theorem claim_C9_counterexample :
    ((((emptyStore.initializeStore (VectorStoreOption.mk 1 1 1 true)).2.add_vector 7 [9]).2.remove_vector
        7).1 = Except.ok 0) ∧
    ((((emptyStore.initializeStore (VectorStoreOption.mk 1 1 1 true)).2.add_vector 7 [9]).2.remove_vector
        7).2.exists_label 7 = Except.ok true) ∧
    (((((emptyStore.initializeStore (VectorStoreOption.mk 1 1 1 true)).2.add_vector 7 [9]).2.remove_vector
        7).2.add_vector 7 [9]).1 = Except.error StoreError.resourceExhausted) ∧
    (((((emptyStore.initializeStore (VectorStoreOption.mk 1 1 1 true)).2.add_vector 7 [9]).2.remove_vector
        7).2.add_vector 7 [9]).1 ≠ Except.error StoreError.alreadyExists) := by
  refine ⟨by decide, by decide, by decide, by decide⟩

theorem add_vacant_eq (s : MemVectorStore) (label : Nat) (q : List Nat)
    (hav : s._is_available = true) (hbs : 1 ≤ s._option.batch_size)
    (hdmlt : ∀ x ∈ s._deleted_map, x < s._current_idx)
    (hcap : s._current_idx ≤ s._data.length * s._option.batch_size)
    (hen : s._option.enable_replace_vacant = true)
    (hdm : s._deleted_map ≠ [])
    (hnone : List.lookup label s._label_map = none) :
    s.add_vector label q = (Except.ok (osetMin s._deleted_map),
      { s with _deleted_map := osetRemove s._deleted_map (osetMin s._deleted_map)
               _lid_to_label := s._lid_to_label.set (osetMin s._deleted_map) label
               _deleted_size := s._deleted_size - 1
               _label_map := mapInsert s._label_map label (osetMin s._deleted_map)
               _data := (s._data.set (osetMin s._deleted_map / s._option.batch_size)
                 ((s._data.getD (osetMin s._deleted_map / s._option.batch_size)
                   dfltBatch).set_vector
                   (osetMin s._deleted_map % s._option.batch_size) q)) }) := by
  obtain ⟨h, t, hdm2⟩ := List.exists_cons_of_ne_nil hdm
  have hmemh : h ∈ s._deleted_map := by
    rw [hdm2]
    exact List.mem_cons_self h t
  have hminh : osetMin s._deleted_map = h := by
    rw [hdm2]
    rfl
  have hltc : osetMin s._deleted_map < s._current_idx := by
    rw [hminh]
    exact hdmlt h hmemh
  have hgv := get_vacant_success s label hav hen hdm hnone
  have hsv := set_vector_ok
    { s with _deleted_map := osetRemove s._deleted_map (osetMin s._deleted_map)
             _lid_to_label := s._lid_to_label.set (osetMin s._deleted_map) label
             _deleted_size := s._deleted_size - 1
             _label_map := mapInsert s._label_map label (osetMin s._deleted_map) }
    (osetMin s._deleted_map) q hav hbs hltc hcap
  dsimp only at hsv
  simp only [MemVectorStore.add_vector]
  rw [if_neg (by simp [hav])]
  simp only [hgv, hsv]

/-- Claim C2: with vacancy reuse enabled, a non-empty tombstone set and a
fresh label, `add_vector` binds the label to the minimum tombstoned
location, removes it from the set and decrements the tombstoned count,
leaving the high-water mark alone; with reuse disabled, a successful
`add_vector` never returns a tombstoned location (it returns the fresh
high-water-mark slot). -/
theorem claim_C2 (s : MemVectorStore) (label : Nat) (q : List Nat)
    (hav : s._is_available = true) (hbs : 1 ≤ s._option.batch_size)
    (hsorted : isSortedLT s._deleted_map = true)
    (hdmlt : ∀ x ∈ s._deleted_map, x < s._current_idx)
    (hcap : s._current_idx ≤ s._data.length * s._option.batch_size) :
    (s._option.enable_replace_vacant = true → s._deleted_map ≠ [] →
      List.lookup label s._label_map = none →
      (s.add_vector label q).1 = Except.ok (osetMin s._deleted_map) ∧
      osetMin s._deleted_map ∈ s._deleted_map ∧
      (∀ x ∈ s._deleted_map, osetMin s._deleted_map ≤ x) ∧
      (s.add_vector label q).2._deleted_map = s._deleted_map.tail ∧
      (s.add_vector label q).2._deleted_size = s._deleted_size - 1 ∧
      (s.add_vector label q).2._current_idx = s._current_idx ∧
      List.lookup label (s.add_vector label q).2._label_map
        = some (osetMin s._deleted_map)) ∧
    (s._option.enable_replace_vacant = false →
      ∀ lid s2, s.add_vector label q = (Except.ok lid, s2) →
        lid = s._current_idx ∧ lid ∉ s._deleted_map) := by
  constructor
  · intro hen hdm hnone
    obtain ⟨h, t, hdm2⟩ := List.exists_cons_of_ne_nil hdm
    have hminh : osetMin s._deleted_map = h := by
      rw [hdm2]
      rfl
    have hadd := add_vacant_eq s label q hav hbs hdmlt hcap hen hdm hnone
    rw [hadd]
    dsimp only
    refine ⟨rfl, ?_, ?_, ?_, rfl, rfl, ?_⟩
    · rw [hminh, hdm2]
      exact List.mem_cons_self h t
    · intro x hx
      rw [hminh]
      rw [hdm2] at hx
      rcases List.mem_cons.mp hx with hx | hx
      · omega
      · have := sorted_cons_lt h t (by rw [hdm2] at hsorted; exact hsorted) x hx
        omega
    · rw [hminh, hdm2]
      simp only [osetRemove, List.tail_cons]
      exact erase_cons_self h t
    · exact lookup_mapInsert_self s._label_map label _ hnone
  · intro hdis lid s2 hadd
    have hgv := get_vacant_disabled s label hav hdis
    simp only [MemVectorStore.add_vector] at hadd
    rw [if_neg (by simp [hav])] at hadd
    simp only [hgv] at hadd
    by_cases hfull : s._option.max_elements ≤ s._current_idx
    · rw [prefer_full s label hav hfull] at hadd
      exact absurd (congrArg Prod.fst hadd) (by simp)
    · push_neg at hfull
      cases hlook : List.lookup label s._label_map with
      | some v =>
        rw [prefer_conflict s label v hav hfull hlook] at hadd
        exact absurd (congrArg Prod.fst hadd) (by simp)
      | none =>
        simp only [MemVectorStore.prefer_add_vector] at hadd
        rw [if_neg (by simp [hav]), if_neg (by omega)] at hadd
        simp only [hlook] at hadd
        cases hres : MemVectorStore.resize_impl
            { s with _label_map := mapInsert s._label_map label s._current_idx
                     _lid_to_label := s._lid_to_label.set s._current_idx label }
            (s._current_idx + 1) with
        | none =>
          simp only [hres] at hadd
          exact absurd (congrArg Prod.fst hadd) (by simp)
        | some st2 =>
          simp only [hres] at hadd
          cases hsv : st2.set_vector s._current_idx q with
          | mk r s3 =>
            simp only [hsv] at hadd
            cases r with
            | ok u =>
              dsimp only at hadd
              have hlid : lid = s._current_idx := by
                have h2 := congrArg Prod.fst hadd
                simpa using h2.symm
              refine ⟨hlid, ?_⟩
              intro hmem
              have := hdmlt lid hmem
              omega
            | error e2 =>
              dsimp only at hadd
              exact absurd (congrArg Prod.fst hadd) (by simp)

/-- Witness for claim C2 on a concrete store with a tombstone. -/
theorem claim_C2_witness :
    ((((((emptyStore.initializeStore (VectorStoreOption.mk 2 4 1 true)).2.add_vector 10 [1]).2.add_vector
        20 [2]).2.remove_vector 10).2.add_vector 30 [3]).1
      = Except.ok (osetMin ((((emptyStore.initializeStore
          (VectorStoreOption.mk 2 4 1 true)).2.add_vector 10 [1]).2.add_vector
          20 [2]).2.remove_vector 10).2._deleted_map)) ∧
    ((((((emptyStore.initializeStore (VectorStoreOption.mk 2 4 1 true)).2.add_vector 10 [1]).2.add_vector
        20 [2]).2.remove_vector 10).2.add_vector 30 [3]).2._current_idx
      = ((((emptyStore.initializeStore (VectorStoreOption.mk 2 4 1 true)).2.add_vector
          10 [1]).2.add_vector 20 [2]).2.remove_vector 10).2._current_idx) := by
  have h := claim_C2
    ((((emptyStore.initializeStore (VectorStoreOption.mk 2 4 1 true)).2.add_vector 10 [1]).2.add_vector
        20 [2]).2.remove_vector 10).2
    30 [3] (by decide) (by decide) (by decide) (by decide) (by decide)
  have h2 := h.1 (by decide) (by decide) (by decide)
  exact ⟨h2.1, h2.2.2.2.2.2.1⟩

/-- Claim C10: when `add_vector` succeeds through the vacancy-reuse path,
the high-water mark is unchanged, no batch is added or removed, every
batch's fill cursor and capacity are unchanged, the slot bytes of every
location other than the reused one are unchanged, the reverse-map entries of
all other locations are unchanged, and the configuration is unchanged. -/
theorem claim_C10 (s : MemVectorStore) (label : Nat) (q : List Nat)
    (hav : s._is_available = true) (hbs : 1 ≤ s._option.batch_size)
    (hdmlt : ∀ x ∈ s._deleted_map, x < s._current_idx)
    (hcap : s._current_idx ≤ s._data.length * s._option.batch_size)
    (hen : s._option.enable_replace_vacant = true)
    (hdm : s._deleted_map ≠ [])
    (hnone : List.lookup label s._label_map = none) :
    (s.add_vector label q).1 = Except.ok (osetMin s._deleted_map) ∧
    (s.add_vector label q).2._current_idx = s._current_idx ∧
    (s.add_vector label q).2._data.length = s._data.length ∧
    (s.add_vector label q).2._option = s._option ∧
    (∀ i, ((s.add_vector label q).2._data.getD i dfltBatch).cursor
      = (s._data.getD i dfltBatch).cursor) ∧
    (∀ i, ((s.add_vector label q).2._data.getD i dfltBatch).cap
      = (s._data.getD i dfltBatch).cap) ∧
    (∀ loc, loc ≠ osetMin s._deleted_map →
      slotBytes (s.add_vector label q).2 loc = slotBytes s loc) ∧
    (∀ x, x ≠ osetMin s._deleted_map →
      (s.add_vector label q).2._lid_to_label.getD x 0 = s._lid_to_label.getD x 0) := by
  have hadd := add_vacant_eq s label q hav hbs hdmlt hcap hen hdm hnone
  rw [hadd]
  dsimp only
  have hcurfacts : ∀ i, ((s._data.set (osetMin s._deleted_map / s._option.batch_size)
      ((s._data.getD (osetMin s._deleted_map / s._option.batch_size) dfltBatch).set_vector
        (osetMin s._deleted_map % s._option.batch_size) q)).getD i dfltBatch).cursor
        = (s._data.getD i dfltBatch).cursor ∧
      ((s._data.set (osetMin s._deleted_map / s._option.batch_size)
      ((s._data.getD (osetMin s._deleted_map / s._option.batch_size) dfltBatch).set_vector
        (osetMin s._deleted_map % s._option.batch_size) q)).getD i dfltBatch).cap
        = (s._data.getD i dfltBatch).cap := by
    intro i
    by_cases hii : i = osetMin s._deleted_map / s._option.batch_size
    · rw [hii]
      by_cases hlt : osetMin s._deleted_map / s._option.batch_size < s._data.length
      · rw [getD_set_self s._data _ _ dfltBatch hlt]
        exact ⟨rfl, rfl⟩
      · push_neg at hlt
        rw [List.set_eq_of_length_le hlt]
        exact ⟨rfl, rfl⟩
    · rw [getD_set_ne s._data _ i _ dfltBatch (fun h2 => hii h2.symm)]
      exact ⟨rfl, rfl⟩
  refine ⟨rfl, rfl, List.length_set _ _ _, rfl, fun i => (hcurfacts i).1,
    fun i => (hcurfacts i).2, ?_, ?_⟩
  · intro loc hloc
    have hdm0 : s._option.batch_size * (loc / s._option.batch_size)
        + loc % s._option.batch_size = loc := Nat.div_add_mod _ _
    have hdm1 : s._option.batch_size * (osetMin s._deleted_map / s._option.batch_size)
        + osetMin s._deleted_map % s._option.batch_size = osetMin s._deleted_map :=
      Nat.div_add_mod _ _
    simp only [slotBytes]
    by_cases hbi : loc / s._option.batch_size = osetMin s._deleted_map / s._option.batch_size
    · have hsi : loc % s._option.batch_size ≠ osetMin s._deleted_map % s._option.batch_size := by
        intro hsi
        apply hloc
        rw [hbi] at hdm0
        omega
      rw [hbi]
      by_cases hlt : osetMin s._deleted_map / s._option.batch_size < s._data.length
      · rw [getD_set_self s._data _ _ dfltBatch hlt]
        simp only [VectorBatch.set_vector]
        rw [getD_set_ne _ _ _ _ [] (fun h2 => hsi h2.symm)]
      · push_neg at hlt
        rw [List.set_eq_of_length_le hlt]
    · rw [getD_set_ne s._data _ _ _ dfltBatch (fun h2 => hbi h2.symm)]
  · intro x hx
    rw [getD_set_ne s._lid_to_label _ x _ 0 (fun h2 => hx h2.symm)]

/-- Witness for claim C10 on a concrete store with a tombstone. -/
theorem claim_C10_witness :
    ((((((emptyStore.initializeStore (VectorStoreOption.mk 2 4 1 true)).2.add_vector 10 [1]).2.add_vector
        20 [2]).2.remove_vector 10).2.add_vector 30 [3]).1
      = Except.ok (osetMin ((((emptyStore.initializeStore
          (VectorStoreOption.mk 2 4 1 true)).2.add_vector 10 [1]).2.add_vector
          20 [2]).2.remove_vector 10).2._deleted_map)) ∧
    ((((((emptyStore.initializeStore (VectorStoreOption.mk 2 4 1 true)).2.add_vector 10 [1]).2.add_vector
        20 [2]).2.remove_vector 10).2.add_vector 30 [3]).2._data.length
      = ((((emptyStore.initializeStore (VectorStoreOption.mk 2 4 1 true)).2.add_vector
          10 [1]).2.add_vector 20 [2]).2.remove_vector 10).2._data.length) := by
  have h := claim_C10
    ((((emptyStore.initializeStore (VectorStoreOption.mk 2 4 1 true)).2.add_vector 10 [1]).2.add_vector
        20 [2]).2.remove_vector 10).2
    30 [3] (by decide) (by decide) (by decide) (by decide) (by decide) (by decide) (by decide)
  exact ⟨h.1, h.2.2.1⟩

/-- Claim C6, amended: `resize(n)` followed by `resize(m)` (where `m` is the
high-water mark before the first call) restores `current_index() == m`,
preserves the bytes of every slot, and neither call touches the tombstone
set or the label map — provided both `m` and `n` are strictly below the
allocated slot capacity of the batch chain.  (At `m` or `n` equal to the
full allocated capacity the shrinking pass of `resize_impl` indexes one past
the last batch: undefined behaviour, modelled as a fatal abort; see the
counterexample.) -/
theorem claim_C6_amended (s : MemVectorStore) (n : Nat)
    (hav : s._is_available = true) (hbs : 1 ≤ s._option.batch_size)
    (hsh : dataShape s._data s._option.batch_size s._current_idx)
    (hmax : s._option.max_elements ≤ s._data.length * s._option.batch_size)
    (hm : s._current_idx < s._data.length * s._option.batch_size)
    (hn : n < s._data.length * s._option.batch_size) :
    (s.resize n).1 = Except.ok () ∧
    ((s.resize n).2.resize s._current_idx).1 = Except.ok () ∧
    ((s.resize n).2.resize s._current_idx).2.current_index = Except.ok s._current_idx ∧
    (∀ loc, slotBytes ((s.resize n).2.resize s._current_idx).2 loc = slotBytes s loc) ∧
    (s.resize n).2._deleted_map = s._deleted_map ∧
    ((s.resize n).2.resize s._current_idx).2._deleted_map = s._deleted_map ∧
    (s.resize n).2._label_map = s._label_map ∧
    ((s.resize n).2.resize s._current_idx).2._label_map = s._label_map := by
  rcases Nat.lt_trichotomy n s._current_idx with hlt | heq | hgt
  · obtain ⟨d1, hri1, hsh1, hlen1, hb1⟩ := resize_impl_shrink s n hbs hsh hlt hm
    have h1 : s.resize n = (Except.ok (), { s with _data := d1, _current_idx := n }) := by
      simp only [MemVectorStore.resize]
      rw [if_neg (by simp [hav])]
      simp only [hri1]
    obtain ⟨d2, hri2, hsh2, hlen2, hb2⟩ :=
      resize_impl_grow { s with _data := d1, _current_idx := n } s._current_idx hbs hsh1
        hlt (by dsimp only; rw [hlen1]; omega) (by dsimp only; rw [hlen1]; exact hmax)
    dsimp only at hri2
    have h2 : MemVectorStore.resize { s with _data := d1, _current_idx := n } s._current_idx
        = (Except.ok (), { s with _data := d2, _current_idx := s._current_idx }) := by
      simp only [MemVectorStore.resize]
      rw [if_neg (by simp [hav])]
      simp only [hri2]
    rw [h1]
    dsimp only
    rw [h2]
    refine ⟨rfl, rfl, ?_, ?_, rfl, rfl, rfl, rfl⟩
    · simp only [MemVectorStore.current_index]
      rw [if_neg (by simp [hav])]
    · intro loc
      simp only [slotBytes]
      rw [hb2, hb1]
  · have hri : s.resize_impl n = some s := by
      simp only [MemVectorStore.resize_impl]
      rw [if_pos heq]
    have h1 : s.resize n = (Except.ok (), s) := by
      simp only [MemVectorStore.resize]
      rw [if_neg (by simp [hav])]
      simp only [hri]
    have hri2 : s.resize_impl s._current_idx = some s := by
      simp [MemVectorStore.resize_impl]
    have h2 : s.resize s._current_idx = (Except.ok (), s) := by
      simp only [MemVectorStore.resize]
      rw [if_neg (by simp [hav])]
      simp only [hri2]
    rw [h1]
    dsimp only
    rw [h2]
    refine ⟨rfl, rfl, ?_, fun loc => rfl, rfl, rfl, rfl, rfl⟩
    simp only [MemVectorStore.current_index]
    rw [if_neg (by simp [hav])]
  · obtain ⟨d1, hri1, hsh1, hlen1, hb1⟩ :=
      resize_impl_grow s n hbs hsh hgt (by omega) hmax
    have h1 : s.resize n = (Except.ok (), { s with _data := d1, _current_idx := n }) := by
      simp only [MemVectorStore.resize]
      rw [if_neg (by simp [hav])]
      simp only [hri1]
    obtain ⟨d2, hri2, hsh2, hlen2, hb2⟩ :=
      resize_impl_shrink { s with _data := d1, _current_idx := n } s._current_idx hbs hsh1
        hgt (by dsimp only; rw [hlen1]; exact hn)
    dsimp only at hri2
    have h2 : MemVectorStore.resize { s with _data := d1, _current_idx := n } s._current_idx
        = (Except.ok (), { s with _data := d2, _current_idx := s._current_idx }) := by
      simp only [MemVectorStore.resize]
      rw [if_neg (by simp [hav])]
      simp only [hri2]
    rw [h1]
    dsimp only
    rw [h2]
    refine ⟨rfl, rfl, ?_, ?_, rfl, rfl, rfl, rfl⟩
    · simp only [MemVectorStore.current_index]
      rw [if_neg (by simp [hav])]
    · intro loc
      simp only [slotBytes]
      rw [hb2, hb1]

/-- Witness for the amended C6 on a concrete store. -/
theorem claim_C6_witness :
    (((((emptyStore.initializeStore (VectorStoreOption.mk 2 3 1 true)).2.add_vector 1 [7]).2.add_vector
        2 [8]).2.resize 1).1 = Except.ok ()) ∧
    ((((((emptyStore.initializeStore (VectorStoreOption.mk 2 3 1 true)).2.add_vector 1 [7]).2.add_vector
        2 [8]).2.resize 1).2.resize
        ((((emptyStore.initializeStore (VectorStoreOption.mk 2 3 1 true)).2.add_vector
          1 [7]).2.add_vector 2 [8]).2)._current_idx).2.current_index
      = Except.ok ((((emptyStore.initializeStore (VectorStoreOption.mk 2 3 1 true)).2.add_vector
          1 [7]).2.add_vector 2 [8]).2)._current_idx) := by
  have h := claim_C6_amended
    ((((emptyStore.initializeStore (VectorStoreOption.mk 2 3 1 true)).2.add_vector 1 [7]).2.add_vector
        2 [8]).2)
    1 (by decide) (by decide) (by decide) (by decide) (by decide) (by decide)
  exact ⟨h.1, h.2.2.1⟩

/-- Counterexample to C6 as stated: with the high-water mark equal to the
allocated batch capacity (`max_elements = 4`, `batch_size = 2`, four live
vectors), `resize(2)` aborts (out-of-bounds batch access in the source's
shrinking loop) instead of completing the round trip. -/
theorem claim_C6_counterexample :
    ((((((emptyStore.initializeStore (VectorStoreOption.mk 2 4 1 true)).2.add_vector 1 [1]).2.add_vector
        2 [2]).2.add_vector 3 [3]).2.add_vector 4 [4]).2._current_idx = 4) ∧
    (((((((emptyStore.initializeStore (VectorStoreOption.mk 2 4 1 true)).2.add_vector 1 [1]).2.add_vector
        2 [2]).2.add_vector 3 [3]).2.add_vector 4 [4]).2.resize 2).1
      = Except.error StoreError.fatal) ∧
    (((((((emptyStore.initializeStore (VectorStoreOption.mk 2 4 1 true)).2.add_vector 1 [1]).2.add_vector
        2 [2]).2.add_vector 3 [3]).2.add_vector 4 [4]).2.resize 2).1 ≠ Except.ok ()) := by
  refine ⟨by decide, by decide, by decide⟩
